import Mathlib

/-!
Verification model of the Wikipedia TOC scraper (src/toc_scraper/app.py).

Python strings are modelled as `List Char` (Lean `Char` is a Unicode scalar
value, matching a Python `str` code point).  Pure functions of the source are
translated directly; the network- and HTML-parsing collaborators are modelled
by explicit data (an HTML node tree, an oracle for the scraper result).

Simplifications, each noted at its definition:
* case-insensitive regex matching is ASCII case folding (the patterns' cased
  letters are ASCII; their Japanese characters have no case),
* `urlparse` skips the NFKC netloc check and bracketed-IPv6 host validation,
* `int()` parsing accepts an optional sign and ASCII digits (no underscore
  separators, no non-ASCII digits).
-/

namespace TocScraper

abbrev PyStr := List Char

/-- Unicode code points for which Python's `str.isspace` holds (the set used
by `str.strip()` and, approximately, by the regex class `\s`). -/
def spaceCodes : List Nat :=
  [9, 10, 11, 12, 13, 28, 29, 30, 31, 32, 0x85, 0xA0, 0x1680,
   0x2000, 0x2001, 0x2002, 0x2003, 0x2004, 0x2005, 0x2006, 0x2007,
   0x2008, 0x2009, 0x200A, 0x2028, 0x2029, 0x202F, 0x205F, 0x3000]

def pyIsSpace (c : Char) : Bool := spaceCodes.contains c.toNat

/-- Python `str.lstrip()`. -/
def lstripWs (s : PyStr) : PyStr := s.dropWhile pyIsSpace

/-- Python `str.rstrip()`. -/
def rstripWs (s : PyStr) : PyStr := (s.reverse.dropWhile pyIsSpace).reverse

/-- Python `str.strip()`. -/
def pyStrip (s : PyStr) : PyStr := rstripWs (lstripWs s)

/-- ASCII lower-casing of one character (`re.IGNORECASE` modelled as ASCII
case folding). -/
def toLowerAscii (c : Char) : Char :=
  if 'A' ≤ c && c ≤ 'Z' then Char.ofNat (c.toNat + 32) else c

def lowerList (s : PyStr) : PyStr := s.map toLowerAscii

/-- Python `s.startswith(p)`. -/
def startsWithL (s p : PyStr) : Bool := s.take p.length == p

/-- Python `s.endswith(p)`. -/
def endsWithL (s p : PyStr) : Bool := s.reverse.take p.length == p.reverse

/-- Case-insensitive prefix match: `re.match(r'^<p>', s, re.IGNORECASE)`. -/
def ciStartsWith (s p : PyStr) : Bool :=
  lowerList (s.take p.length) == lowerList p

/-- Split at the first occurrence of `c` (the separator is dropped);
`none` when `c` does not occur.  Models `str.split(c, 1)` / `str.find`. -/
def splitFirst (s : PyStr) (c : Char) : Option (PyStr × PyStr) :=
  match s.dropWhile (fun d => d != c) with
  | [] => none
  | _ :: rest => some (s.takeWhile (fun d => d != c), rest)

/-! ### Percent decoding (`urllib.parse.unquote`) -/

/-- Hexadecimal digit value (`0-9`, `a-f`, `A-F`; code points 48-57, 97-102,
65-70). -/
def hexVal (c : Char) : Option Nat :=
  if 48 ≤ c.toNat ∧ c.toNat ≤ 57 then some (c.toNat - 48)
  else if 97 ≤ c.toNat ∧ c.toNat ≤ 102 then some (c.toNat - 87)
  else if 65 ≤ c.toNat ∧ c.toNat ≤ 70 then some (c.toNat - 55)
  else none

/-- A character in lead position of the percent scanner: `%` opens an escape
(`Sum.inr`), a plain ASCII character becomes its byte and any other character
passes through as itself. -/
def step0 (c : Char) : Sum (Nat ⊕ Char) Unit :=
  if c = '%' then Sum.inr ()
  else if c.toNat < 128 then Sum.inl (Sum.inl c.toNat)
  else Sum.inl (Sum.inr c)

/-- Tokenise a string for percent decoding: `%XX` with two hex digits and
plain ASCII characters become bytes (`Sum.inl`), other characters pass
through (`Sum.inr`).  A `%` not followed by two hex digits stays a literal
byte 37, as in CPython's `unquote`.  The scanner state records a pending `%`
(`some none`) or a pending `%h` with `h` a first hex digit (`some (some h)`);
when an escape does not complete, its pending characters are emitted
literally and the current character is rescanned in lead position. -/
def pyTokGo : PyStr → Option (Option Char) → List (Nat ⊕ Char)
  | [], none => []
  | [], some none => [Sum.inl 37]
  | [], some (some a) => [Sum.inl 37, Sum.inl a.toNat]
  | c :: rest, none =>
    match step0 c with
    | Sum.inl t => t :: pyTokGo rest none
    | Sum.inr _ => pyTokGo rest (some none)
  | c :: rest, some none =>
    match hexVal c with
    | some _ => pyTokGo rest (some (some c))
    | none =>
      Sum.inl 37 ::
        match step0 c with
        | Sum.inl t => t :: pyTokGo rest none
        | Sum.inr _ => pyTokGo rest (some none)
  | c :: rest, some (some a) =>
    match hexVal a, hexVal c with
    | some x, some y => Sum.inl (16 * x + y) :: pyTokGo rest none
    | _, _ =>
      Sum.inl 37 :: Sum.inl a.toNat ::
        match step0 c with
        | Sum.inl t => t :: pyTokGo rest none
        | Sum.inr _ => pyTokGo rest (some none)

def pyTokens (s : PyStr) : List (Nat ⊕ Char) := pyTokGo s none

def replChar : Char := Char.ofNat 0xFFFD

/-- Mid-sequence decoder state: accumulated value, continuation bytes still
needed, and the valid range for the next byte (restricted after E0/ED/F0/F4
to exclude overlong forms, surrogates and values above U+10FFFF). -/
abbrev Utf8State := Nat × Nat × Nat × Nat

/-- Classify a byte in lead position: either an output character (ASCII, or
U+FFFD for an invalid lead byte) or the state opened by a multibyte lead. -/
def utf8Lead (b : Nat) : Sum Char Utf8State :=
  if b < 0x80 then Sum.inl (Char.ofNat b)
  else if 0xC2 ≤ b && b ≤ 0xDF then Sum.inr (b - 0xC0, 1, 0x80, 0xBF)
  else if 0xE0 ≤ b && b ≤ 0xEF then
    Sum.inr (b - 0xE0, 2, if b = 0xE0 then 0xA0 else 0x80,
      if b = 0xED then 0x9F else 0xBF)
  else if 0xF0 ≤ b && b ≤ 0xF4 then
    Sum.inr (b - 0xF0, 3, if b = 0xF0 then 0x90 else 0x80,
      if b = 0xF4 then 0x8F else 0xBF)
  else Sum.inl replChar

/-- UTF-8 decoding automaton.  An invalid continuation byte emits U+FFFD for
the unfinished sequence (the maximal valid subpart) and reprocesses the byte
in lead position, matching `bytes.decode('utf-8', 'replace')`. -/
def utf8Go : List Nat → Option Utf8State → PyStr
  | [], none => []
  | [], some _ => [replChar]
  | b :: rest, none =>
    match utf8Lead b with
    | Sum.inl c => c :: utf8Go rest none
    | Sum.inr st => utf8Go rest (some st)
  | b :: rest, some (acc, need, lo, hi) =>
    if lo ≤ b && b ≤ hi then
      if need = 1 then Char.ofNat (acc * 0x40 + (b - 0x80)) :: utf8Go rest none
      else utf8Go rest (some (acc * 0x40 + (b - 0x80), need - 1, 0x80, 0xBF))
    else
      replChar ::
        match utf8Lead b with
        | Sum.inl c => c :: utf8Go rest none
        | Sum.inr st => utf8Go rest (some st)

/-- UTF-8 decoding with `errors='replace'`. -/
def utf8DecodeReplace (l : List Nat) : PyStr := utf8Go l none

/-- Consume decoding tokens, accumulating byte runs which are UTF-8 decoded
when flushed (at a non-ASCII pass-through character or at the end). -/
def unquoteTokens : List (Nat ⊕ Char) → List Nat → PyStr
  | [], buf => utf8DecodeReplace buf
  | Sum.inl b :: rest, buf => unquoteTokens rest (buf ++ [b])
  | Sum.inr c :: rest, buf => utf8DecodeReplace buf ++ c :: unquoteTokens rest []

/-- Python `urllib.parse.unquote(s)` (UTF-8, `errors='replace'`). -/
def unquote (s : PyStr) : PyStr := unquoteTokens (pyTokens s) []

/-! ### URL parsing (`urllib.parse.urlparse`) -/

structure UrlParts where
  scheme : PyStr
  netloc : PyStr
  path : PyStr
  query : PyStr
  fragment : PyStr
deriving DecidableEq

def schemeChar (c : Char) : Bool :=
  c.isAlpha || c.isDigit || c == '+' || c == '-' || c == '.'

def removeUnsafe (s : PyStr) : PyStr :=
  s.filter (fun c => !(c == '\t' || c == '\r' || c == '\n'))

def notNetlocDelim (c : Char) : Bool := !(c == '/' || c == '?' || c == '#')

/-- Scheme extraction of `urlsplit`: split at the first `:` when the text
before it is a valid scheme (lower-cased). -/
def pySplitScheme (url : PyStr) : PyStr × PyStr :=
  match splitFirst url ':' with
  | some (pre, post) =>
    if !pre.isEmpty && (pre.headD ' ').isAlpha && pre.all schemeChar then
      (lowerList pre, post)
    else ([], url)
  | none => ([], url)

/-- `_splitnetloc`: after a leading `//`, the netloc runs to the first
`/?#`. -/
def pySplitNetloc (rest : PyStr) : PyStr × PyStr :=
  if startsWithL rest "//".data then
    (rest.drop 2 |>.takeWhile notNetlocDelim,
     rest.drop 2 |>.drop ((rest.drop 2 |>.takeWhile notNetlocDelim).length))
  else ([], rest)

/-- CPython `urlsplit`: strip tab/CR/LF anywhere, split off the scheme, take
the netloc after `//`, then split the fragment at the first `#` and the query
at the first `?`.  A netloc with unbalanced brackets raises `ValueError`,
modelled as `none`.  (NFKC netloc validation and bracketed-host checking are
not modelled.) -/
def pyUrlsplit (url0 : PyStr) : Option UrlParts :=
  let sp := pySplitScheme (removeUnsafe url0)
  let nl := pySplitNetloc sp.2
  if (nl.1.contains '[' && !nl.1.contains ']') ||
     (nl.1.contains ']' && !nl.1.contains '[') then none
  else
    let fq : PyStr × PyStr :=
      match splitFirst nl.2 '#' with
      | some (a, b) => (a, b)
      | none => (nl.2, [])
    let pq : PyStr × PyStr :=
      match splitFirst fq.1 '?' with
      | some (a, b) => (a, b)
      | none => (fq.1, [])
    some ⟨sp.1, nl.1, pq.1, pq.2, fq.2⟩

/-- Schemes for which `urlparse` splits `;params` off the path (CPython
`uses_params`; the empty scheme is included). -/
def usesParams : List PyStr :=
  [[], "ftp".data, "hdl".data, "prospero".data, "http".data, "imap".data,
   "https".data, "shttp".data, "rtsp".data, "rtspu".data, "sip".data,
   "sips".data, "mms".data, "sftp".data, "tel".data]

/-- CPython `_splitparams`: split the path at the first `;` at or after the
last `/` (anywhere when the path has no `/`); no split when no such `;`
exists. -/
def pySplitParams (url : PyStr) : PyStr × PyStr :=
  let tl := (url.reverse.takeWhile (fun c => c != '/')).reverse
  let hd := (url.reverse.dropWhile (fun c => c != '/')).reverse
  if tl.contains ';' then
    (hd ++ tl.takeWhile (fun c => c != ';'),
     (tl.dropWhile (fun c => c != ';')).drop 1)
  else (url, [])

/-- CPython `urlparse` (the function the source calls at line 49):
`urlsplit`, then for a scheme in `uses_params` with a `;` in the path the
path is split at its params.  The params component, which the source never
reads, is not retained in `UrlParts`. -/
def pyUrlparse (url0 : PyStr) : Option UrlParts :=
  match pyUrlsplit url0 with
  | none => none
  | some P =>
    if usesParams.contains P.scheme && P.path.contains ';' then
      some { P with path := (pySplitParams P.path).1 }
    else some P

/-! ### URL validation (`validate_wikipedia_url`, app.py lines 30-118) -/

/-- Forbidden namespace patterns, in source order (each source regex is
`^<literal>` matched with `re.match`, i.e. a prefix match). -/
def forbiddenPatterns : List PyStr :=
  ["Special:".data, "特別:".data, "User:".data, "利用者:".data,
   "User_talk:".data, "利用者‐会話:".data, "Wikipedia:".data, "ノート:".data,
   "Talk:".data, "ファイル:".data, "File:".data, "Media:".data,
   "カテゴリ:".data, "Category:".data, "Template:".data, "Help:".data,
   "Portal:".data, "Draft:".data, "Book:".data, "Module:".data,
   "MediaWiki:".data, "Project:".data]

/-- `pattern.replace('^', '').replace(':', '')` (the `^` is not stored). -/
def patternName (p : PyStr) : PyStr := p.filter (fun c => c != ':')

def apostrophe : Char := Char.ofNat 39

/-- Message `f"Access to {pattern_name} pages is prohibited by Wikipedia's
robots.txt"`. -/
def forbiddenReason (p : PyStr) : PyStr :=
  "Access to ".data ++ patternName p ++
    " pages is prohibited by Wikipedia".data ++
    (apostrophe :: "s robots.txt".data)

def findForbidden (name : PyStr) : Option PyStr :=
  forbiddenPatterns.find? (fun p => ciStartsWith name p)

/-- Reason strings of steps 1-8, in rejection order. -/
def rUrlRequired : PyStr := "URL is required".data

def rInvalidFormat : PyStr := "Invalid URL format".data

def rHttps : PyStr := "URL must use HTTPS".data

def rDomain : PyStr := "URL must be from Wikipedia (*.wikipedia.org)".data

def rMobile : PyStr := "Mobile and Commons Wikipedia URLs are not supported".data

def rArticlePath : PyStr := "URL must be a Wikipedia article (/wiki/article_name)".data

def rWPath : PyStr := "Access to /w/ paths is prohibited by robots.txt".data

def rApiPath : PyStr := "Access to /api/ paths is prohibited by robots.txt".data

def rTrapPath : PyStr := "Access to /trap/ paths is prohibited by robots.txt".data

def rArticleRequired : PyStr := "Article name is required".data

/-- Namespace check (the `for pattern in forbidden_patterns` loop, lines
113-118). -/
def checkNamespaces (name : PyStr) : Bool × PyStr :=
  match findForbidden name with
  | some p => (false, forbiddenReason p)
  | none => (true, [])

/-- Steps 1-8 of the validation chain (lines 40-85): everything before the
namespace loop.  `Sum.inl` is an early (rejecting) result, `Sum.inr` the
percent-decoded article name handed to the namespace check. -/
def validateSteps18 (url : Option PyStr) : Sum (Bool × PyStr) PyStr :=
  match url with
  | none => Sum.inl (false, rUrlRequired)
  | some u0 =>
    if u0.isEmpty then Sum.inl (false, rUrlRequired)
    else
      let u := pyStrip u0
      if u.isEmpty then Sum.inl (false, rUrlRequired)
      else
        match pyUrlparse u with
        | none => Sum.inl (false, rInvalidFormat)
        | some parsed =>
          if parsed.scheme != "https".data then
            Sum.inl (false, rHttps)
          else if !endsWithL parsed.netloc ".wikipedia.org".data then
            Sum.inl (false, rDomain)
          else if startsWithL parsed.netloc "m.".data ||
              startsWithL parsed.netloc "commons.".data then
            Sum.inl (false, rMobile)
          else if !startsWithL parsed.path "/wiki/".data then
            Sum.inl (false, rArticlePath)
          else if startsWithL parsed.path "/w/".data then
            Sum.inl (false, rWPath)
          else if startsWithL parsed.path "/api/".data then
            Sum.inl (false, rApiPath)
          else if startsWithL parsed.path "/trap/".data then
            Sum.inl (false, rTrapPath)
          else
            let article := unquote (parsed.path.drop 6)
            if article.isEmpty then Sum.inl (false, rArticleRequired)
            else Sum.inr article

/-- `validate_wikipedia_url(url)`: returns `(is_valid, error_message)`. -/
def validate_wikipedia_url (url : Option PyStr) : Bool × PyStr :=
  match validateSteps18 url with
  | Sum.inl r => r
  | Sum.inr article => checkNamespaces article

/-- Shape invariant for an outcome of steps 1-8: an early rejection carries
`is_valid = false` and a non-empty, fully trimmed reason. -/
def GoodReject : Sum (Bool × PyStr) PyStr → Prop
  | Sum.inl r => r.1 = false ∧ r.2 ≠ [] ∧ pyStrip r.2 = r.2
  | Sum.inr _ => True

/-- Shape invariant for a validator result: accepted with empty reason, or
rejected with a non-empty, fully trimmed reason. -/
def GoodResult (r : Bool × PyStr) : Prop :=
  (r.1 = true ∧ r.2 = []) ∨ (r.1 = false ∧ r.2 ≠ [] ∧ pyStrip r.2 = r.2)

/-! ### HTML tree model (the BeautifulSoup collaborator)

The HTML-parsing collaborator yields a navigable tree of elements with tag
names, attributes, text and parent/child relationships.  Only the attributes
the source reads are modelled: `id`, the multi-valued `class`, and `href`. -/

structure Attrs where
  id : Option PyStr := none
  classes : List PyStr := []
  href : Option PyStr := none
deriving DecidableEq

inductive Node where
  | elem (name : PyStr) (attrs : Attrs) (children : List Node)
  | text (s : PyStr)

/-- An element together with its chain of element ancestors (innermost
first), standing for a BeautifulSoup tag with its `.parent` chain.  (The
`BeautifulSoup` document object closing the real parent chain never matches
a tag-name search and is omitted.) -/
structure Located where
  name : PyStr
  attrs : Attrs
  children : List Node
  ancestors : List (PyStr × Attrs)

mutual
/-- The element itself (when it is one) and all its element descendants, in
document (preorder) order, each with its ancestor chain. -/
def elemNodes (anc : List (PyStr × Attrs)) : Node → List Located
  | Node.text _ => []
  | Node.elem n a cs => ⟨n, a, cs, anc⟩ :: elemNodesList ((n, a) :: anc) cs
def elemNodesList (anc : List (PyStr × Attrs)) : List Node → List Located
  | [] => []
  | c :: cs => elemNodes anc c ++ elemNodesList anc cs
end

/-- BeautifulSoup `soup.find(...)`: first matching element in document
order. -/
def findElem (doc : List Node) (p : Located → Bool) : Option Located :=
  (elemNodesList [] doc).find? p

mutual
def nodeTexts : Node → List PyStr
  | Node.text s => [s]
  | Node.elem _ _ cs => listTexts cs
def listTexts : List Node → List PyStr
  | [] => []
  | c :: cs => nodeTexts c ++ listTexts cs
end

/-- BeautifulSoup `get_text()` on an element's children. -/
def getText (cs : List Node) : PyStr := (listTexts cs).flatten

/-- BeautifulSoup `get_text(strip=True)`: every contained string stripped,
then joined. -/
def getTextStrip (cs : List Node) : PyStr := ((listTexts cs).map pyStrip).flatten

/-! ### Heading-level resolvers (app.py lines 121-179) -/

def digitsVal (l : PyStr) : Option Nat :=
  if !l.isEmpty && l.all Char.isDigit then
    some (l.foldl (fun acc c => acc * 10 + (c.toNat - 48)) 0)
  else none

/-- Python `int(str)`: surrounding whitespace, an optional sign, then ASCII
digits (underscore separators and non-ASCII digits are not modelled). -/
def pyInt (s : PyStr) : Option Int :=
  match pyStrip s with
  | '+' :: rest => (digitsVal rest).map Int.ofNat
  | '-' :: rest => (digitsVal rest).map (fun n => -(Int.ofNat n))
  | t => (digitsVal t).map Int.ofNat

/-- Fallback of lines 159-177: walk up at most five parents looking for a
`ul`; at the first one found, count the `ul` ancestors strictly above it
and return that count plus one; if none is found return 1. -/
def ulFallbackLevel (anc : List (PyStr × Attrs)) : Int :=
  match (anc.take 5).findIdx? (fun e => e.1 == "ul".data) with
  | some i =>
    Int.ofNat ((anc.drop (i + 1)).countP (fun e => e.1 == "ul".data) + 1)
  | none => 1

/-- `get_heading_level_from_toc_item(link)` (lines 136-179): find the
nearest enclosing `li`, read the first parsable `toclevel-<N>` class, else
fall back to counting `ul` nesting. -/
def get_heading_level_from_toc_item (link : Located) : Int :=
  let tocClassLevel :=
    match link.ancestors.find? (fun e => e.1 == "li".data) with
    | some li =>
      (li.2.classes.filterMap (fun cn =>
        if startsWithL cn "toclevel-".data then
          match (cn.splitOn '-').get? 1 with
          | some part => pyInt part
          | none => none
        else none)).head?
    | none => none
  match tocClassLevel with
  | some level => level
  | none => ulFallbackLevel link.ancestors

def headingNames : List PyStr :=
  ["h1".data, "h2".data, "h3".data, "h4".data, "h5".data, "h6".data]

/-- `get_heading_level_from_tag(tag)` (lines 121-133): `int(tag.name[1])`
for `h1`-`h6`, any other tag gives 1. -/
def get_heading_level_from_tag (tag : Located) : Int :=
  if headingNames.contains tag.name then
    match tag.name with
    | [_, c] => Int.ofNat (c.toNat - 48)
    | _ => 1
  else 1

/-! ### TOC extraction (`scrape_wikipedia_toc`, lines 206-294) -/

structure TocEntry where
  level : Int
  title : PyStr
  anchor : PyStr
  href : PyStr
deriving DecidableEq

inductive ScrapeResult where
  | success (url : PyStr) (title : PyStr) (toc : List TocEntry) (total_items : Nat)
  | failure (error : PyStr) (message : PyStr)
deriving DecidableEq

/-- Tail of the regex `^\d+(\.\d+)*\s*`, entered after at least one digit
was consumed (`\s` modelled by `pyIsSpace`, `\d` by ASCII digits). -/
def dropOrdTail : PyStr → PyStr
  | [] => []
  | c :: rest =>
    if c.isDigit then dropOrdTail rest
    else if c = '.' then
      match rest with
      | d :: r2 => if d.isDigit then dropOrdTail r2 else c :: rest
      | [] => [c]
    else lstripWs (c :: rest)

/-- `re.sub(r'^\d+(\.\d+)*\s*', '', text)` (line 237). -/
def dropOrdinal (s : PyStr) : PyStr :=
  match s with
  | c :: rest => if c.isDigit then dropOrdTail rest else s
  | [] => []

/-- `re.sub(r'\s+', ' ', text)` as a one-pass automaton; the flag records
whether a whitespace run is in progress. -/
def collapseWsGo : PyStr → Bool → PyStr
  | [], _ => []
  | c :: rest, inRun =>
    if pyIsSpace c then
      if inRun then collapseWsGo rest true
      else ' ' :: collapseWsGo rest true
    else c :: collapseWsGo rest false

def collapseWs (s : PyStr) : PyStr := collapseWsGo s false

def tocSelfTitles : List PyStr :=
  ["目次".data, "contents".data, "table of contents".data]

/-- One anchor of the TOC container (lines 223-255); `none` when the anchor
is skipped. -/
def tocItemOfLink (link : Located) : Option TocEntry :=
  let href := link.attrs.href.getD []
  if startsWithL href "#".data then
    let level := get_heading_level_from_toc_item link
    let textElem :=
      (elemNodesList ((link.name, link.attrs) :: link.ancestors)
        link.children).find? (fun e =>
          e.name == "span".data && e.attrs.classes.contains "toctext".data)
    let text0 :=
      match textElem with
      | some sp => getTextStrip sp.children
      | none => getTextStrip link.children
    let text := pyStrip (collapseWs (dropOrdinal text0))
    if tocSelfTitles.contains (lowerList text) || text.isEmpty then none
    else some { level := level, title := text, anchor := href.drop 1, href := href }
  else none

/-- Primary path (lines 220-255): every `a` descendant of `div#toc`. -/
def tocItemsPrimary (tocDiv : Located) : List TocEntry :=
  ((elemNodesList ((tocDiv.name, tocDiv.attrs) :: tocDiv.ancestors)
      tocDiv.children).filter (fun e => e.name == "a".data)).filterMap
    tocItemOfLink

mutual
/-- `decompose()` of every `span` classed `mw-editsection` (lines 263-265). -/
def stripEditNode : Node → List Node
  | Node.text s => [Node.text s]
  | Node.elem n a cs =>
    if n == "span".data && a.classes.contains "mw-editsection".data then []
    else [Node.elem n a (stripEditList cs)]
def stripEditList : List Node → List Node
  | [] => []
  | c :: cs => stripEditNode c ++ stripEditList cs
end

/-- Character class `[\w぀-ゟ゠-ヿ一-龯]` of line
276 (`\w` modelled as ASCII alphanumerics plus underscore). -/
def anchorKeep (c : Char) : Bool :=
  c.isAlphanum || c == '_' ||
  (0x3040 ≤ c.toNat && c.toNat ≤ 0x309F) ||
  (0x30A0 ≤ c.toNat && c.toNat ≤ 0x30FF) ||
  (0x4E00 ≤ c.toNat && c.toNat ≤ 0x9FAF)

/-- One heading of the fallback path (lines 261-286); `none` when skipped. -/
def tocItemOfHeading (heading : Located) : Option TocEntry :=
  let text := collapseWs (getTextStrip (stripEditList heading.children))
  if !text.isEmpty && !startsWithL text "[編集]".data &&
      !(["目次".data, "contents".data].contains (lowerList text)) then
    let anchorId0 := heading.attrs.id.getD []
    let anchorId :=
      if anchorId0.isEmpty then
        text.map (fun c => if anchorKeep c then c else '_')
      else anchorId0
    some { level := get_heading_level_from_tag heading, title := text,
           anchor := anchorId, href := '#' :: anchorId }
  else none

/-- Fallback path (lines 258-286): all `h2`-`h6` elements in document
order. -/
def tocItemsFallback (doc : List Node) : List TocEntry :=
  ((elemNodesList [] doc).filter (fun e =>
    ["h2".data, "h3".data, "h4".data, "h5".data, "h6".data].contains
      e.name)).filterMap tocItemOfHeading

/-- Page title (lines 209-212). -/
def pageTitle (doc : List Node) : PyStr :=
  let titleElem :=
    match findElem doc (fun e =>
        e.name == "h1".data && e.attrs.classes.contains "firstHeading".data) with
    | some e => some e
    | none =>
      findElem doc (fun e =>
        e.name == "h1".data && e.attrs.id == some "firstHeading".data)
  match titleElem with
  | some e => pyStrip (getText e.children)
  | none => "Unknown".data

/-- Parsing portion of `scrape_wikipedia_toc` (lines 206-294), applied to an
already-fetched, parsed document; transport failures are mapped by the
caller and never reach this code. -/
def extractToc (doc : List Node) (url : PyStr) : ScrapeResult :=
  let primary :=
    match findElem doc (fun e =>
        e.name == "div".data && e.attrs.id == some "toc".data) with
    | some tocDiv => tocItemsPrimary tocDiv
    | none => []
  let items := if primary.isEmpty then tocItemsFallback doc else primary
  ScrapeResult.success url (pageTitle doc) items items.length

/-! ### Request handler (`lambda_handler`, lines 462-552)

The scraper (network collaborator) is passed in as an oracle; `json.dumps`
serialisation is a collaborator, so bodies are kept structured. -/

structure Event where
  httpMethod : Option PyStr
  queryStringParameters : Option (List (PyStr × PyStr))
deriving DecidableEq

inductive RespBody where
  | methodNotAllowed
  | urlRequired
  | invalidUrl (message : PyStr) (provided_url : PyStr)
  | scrape (r : ScrapeResult)
  | internalError (message : PyStr)
deriving DecidableEq

structure LambdaResponse where
  statusCode : Nat
  headers : List (PyStr × PyStr)
  body : RespBody
deriving DecidableEq

/-- Python `needle in hay` on strings (substring containment). -/
def containsSub (hay needle : PyStr) : Bool :=
  match hay with
  | [] => needle.isEmpty
  | _ :: t => startsWithL hay needle || containsSub t needle

def ctPlain : PyStr × PyStr :=
  ("Content-Type".data, "application/json".data)

def ctUtf8 : PyStr × PyStr :=
  ("Content-Type".data, "application/json; charset=utf-8".data)

def corsHdr : PyStr × PyStr :=
  ("Access-Control-Allow-Origin".data, "*".data)

def cacheHdr : PyStr × PyStr :=
  ("Cache-Control".data, "public, max-age=300".data)

/-- `lambda_handler(event, context)` with the scrape collaborator supplied
as an oracle.  Mirrors lines 468-538; the surrounding `try` can only reach
its `except` through a collaborator exception, see
`internalErrorResponse`. -/
def lambda_handler (scrape : PyStr → ScrapeResult) (event : Event) :
    LambdaResponse :=
  let httpMethod := event.httpMethod.getD "GET".data
  if httpMethod != "GET".data then
    { statusCode := 405, headers := [ctPlain, corsHdr],
      body := RespBody.methodNotAllowed }
  else
    let queryParams := event.queryStringParameters.getD []
    let url := queryParams.lookup "url".data
    match url with
    | none =>
      { statusCode := 400, headers := [ctUtf8, corsHdr],
        body := RespBody.urlRequired }
    | some u =>
      if u.isEmpty then
        { statusCode := 400, headers := [ctUtf8, corsHdr],
          body := RespBody.urlRequired }
      else
        let v := validate_wikipedia_url (some u)
        if !v.1 then
          { statusCode := 400, headers := [ctUtf8, corsHdr],
            body := RespBody.invalidUrl v.2 u }
        else
          let result := scrape u
          let status :=
            match result with
            | ScrapeResult.success _ _ _ _ => 200
            | ScrapeResult.failure e _ =>
              if containsSub (lowerList e) "timeout".data then 504 else 500
          { statusCode := status, headers := [ctUtf8, corsHdr, cacheHdr],
            body := RespBody.scrape result }

/-- Article-URL builder used to state percent-encoding claims: the fixed
accepted scheme/host/path prefix in front of an article string. -/
def wikiUrl (s : PyStr) : PyStr := "https://en.wikipedia.org/wiki/".data ++ s

/-- Characters that do not interact with URL parsing: not a fragment or
query delimiter and not one of the tab/CR/LF bytes `urlparse` removes. -/
def urlSafeChar (c : Char) : Bool :=
  !(c == '#' || c == '?' || c == '\t' || c == '\r' || c == '\n')

/-- The string does not end in whitespace (so surrounding it leaves
`str.strip()` inert). -/
def lastNotSpace (s : PyStr) : Bool :=
  match s.getLast? with
  | some c => !pyIsSpace c
  | none => true

/-- Hypotheses under which an article string embeds transparently into
`wikiUrl`: parsing splits at the fixed prefix only and stripping is inert. -/
def urlSafe (s : PyStr) : Prop :=
  s.all urlSafeChar = true ∧ lastNotSpace s = true

/-- Head-is-whitespace test, used to characterise collapsed strings. -/
def headIsSpace : PyStr → Bool
  | [] => false
  | d :: _ => pyIsSpace d

/-- Characterisation of `re.sub(r'\s+', ' ', _)` fixed points: every
whitespace character is a single space not followed by whitespace. -/
def spaceOk : PyStr → Bool
  | [] => true
  | c :: rest =>
    (!pyIsSpace c || (c == ' ' && !headIsSpace rest)) && spaceOk rest

/-- Response built by the outermost `except` (lines 540-552). -/
def internalErrorResponse (message : PyStr) : LambdaResponse :=
  { statusCode := 500, headers := [ctUtf8, corsHdr],
    body := RespBody.internalError message }

end TocScraper

namespace TocScraper

/-! ### Supporting lemmas -/

/-- Every reason the namespace loop can produce is non-empty and carries no
surrounding whitespace. -/
lemma forbiddenReason_ok :
    ∀ p ∈ forbiddenPatterns,
      forbiddenReason p ≠ [] ∧ pyStrip (forbiddenReason p) = forbiddenReason p := by
  decide

/-- Steps 1-8 reject only in the `GoodReject` shape. -/
lemma steps18_good (url : Option PyStr) : GoodReject (validateSteps18 url) := by
  unfold validateSteps18
  cases url with
  | none => exact ⟨rfl, by decide, by decide⟩
  | some u0 =>
    dsimp only
    repeat' split
    all_goals first
      | trivial
      | exact ⟨rfl, by decide, by decide⟩

/-- Every result of the validator is in the `GoodResult` shape. -/
lemma validate_good (url : Option PyStr) :
    GoodResult (validate_wikipedia_url url) := by
  unfold validate_wikipedia_url
  have hg := steps18_good url
  cases hs : validateSteps18 url with
  | inl r =>
    rw [hs] at hg
    exact Or.inr hg
  | inr article =>
    dsimp only
    unfold checkNamespaces
    cases hf : findForbidden article with
    | some p =>
      exact Or.inr ⟨rfl, forbiddenReason_ok p (List.mem_of_find?_eq_some hf)⟩
    | none => exact Or.inl ⟨rfl, rfl⟩

/-- The handler answers with the 405 shape exactly on a non-GET method, and
otherwise with one of the two charset-tagged header blocks. -/
lemma handler_shape (scrape : PyStr → ScrapeResult) (e : Event) :
    ((lambda_handler scrape e).statusCode = 405 ∧
      (lambda_handler scrape e).headers = [ctPlain, corsHdr] ∧
      ∃ m, e.httpMethod = some m ∧ m ≠ "GET".data) ∨
    ((lambda_handler scrape e).statusCode ≠ 405 ∧
      ((lambda_handler scrape e).headers = [ctUtf8, corsHdr] ∨
        (lambda_handler scrape e).headers = [ctUtf8, corsHdr, cacheHdr]) ∧
      (e.httpMethod = none ∨ e.httpMethod = some "GET".data)) := by
  obtain ⟨m, qp⟩ := e
  unfold lambda_handler
  dsimp only
  split
  · rename_i hm
    left
    refine ⟨rfl, rfl, ?_⟩
    cases m with
    | none => simp [Option.getD] at hm
    | some v =>
      refine ⟨v, rfl, ?_⟩
      intro hv
      simp [Option.getD, hv] at hm
  · rename_i hm
    have hmethod : m = none ∨ m = some "GET".data := by
      cases m with
      | none => exact Or.inl rfl
      | some v =>
        right
        simp only [Option.getD, bne_iff_ne, ne_eq, not_not] at hm
        exact congrArg some hm
    split
    · exact Or.inr ⟨by simp, Or.inl rfl, hmethod⟩
    · split
      · exact Or.inr ⟨by simp, Or.inl rfl, hmethod⟩
      · split
        · exact Or.inr ⟨by simp, Or.inl rfl, hmethod⟩
        · right
          refine ⟨?_, Or.inr rfl, hmethod⟩
          split
          · simp
          · split <;> simp

/-- Supplying no method and supplying GET produce identical responses. -/
lemma handler_none_eq_get (scrape : PyStr → ScrapeResult) (e : Event) :
    lambda_handler scrape { e with httpMethod := none } =
      lambda_handler scrape { e with httpMethod := some "GET".data } := rfl

end TocScraper

namespace TocScraper

/-! ### Claim theorems (first group) -/

/-- C4: for every input URL, including null and whitespace-only strings,
`validate_wikipedia_url` returns an empty reason iff it accepts, and every
rejection reason is non-empty with no leading or trailing whitespace. -/
theorem C4_theorem (url : Option PyStr) :
    ((validate_wikipedia_url url).1 = true ↔ (validate_wikipedia_url url).2 = []) ∧
    ((validate_wikipedia_url url).1 = false →
      (validate_wikipedia_url url).2 ≠ [] ∧
        pyStrip (validate_wikipedia_url url).2 = (validate_wikipedia_url url).2) := by
  rcases validate_good url with ⟨h1, h2⟩ | ⟨h1, h2, h3⟩
  · refine ⟨by simp [h1, h2], ?_⟩
    intro hf
    rw [h1] at hf
    exact absurd hf (by decide)
  · refine ⟨?_, fun _ => ⟨h2, h3⟩⟩
    rw [h1]
    exact ⟨fun h => absurd h (by decide), fun h => absurd h h2⟩

/-- C4 witness at the whitespace-only input. -/
theorem C4_witness :
    ((validate_wikipedia_url (some "   ".data)).1 = true ↔
      (validate_wikipedia_url (some "   ".data)).2 = []) ∧
    ((validate_wikipedia_url (some "   ".data)).1 = false →
      (validate_wikipedia_url (some "   ".data)).2 ≠ [] ∧
        pyStrip (validate_wikipedia_url (some "   ".data)).2 =
          (validate_wikipedia_url (some "   ".data)).2) :=
  C4_theorem (some "   ".data)

/-- C2: the anchor-mode heading-level resolver is not bounded by 6: a TOC
anchor whose parent `li` is classed `toclevel-7` resolves to level 7,
outside the documented range [1,6]. -/
theorem C2_theorem :
    get_heading_level_from_toc_item
        ⟨"a".data, { href := some "#x".data }, [],
         [("li".data, { classes := ["toclevel-7".data] })]⟩ = 7 ∧
      ¬((7 : Int) ≤ 6) := by
  exact ⟨by decide, by decide⟩

/-- C6: a document with no `div#toc` and no `h2`-`h6` heading extracts to a
success result with an empty TOC and `total_items = 0`. -/
theorem C6_theorem (doc : List Node) (url : PyStr)
    (hdiv : ∀ e ∈ elemNodesList ([] : List (PyStr × Attrs)) doc,
      ¬(e.name = "div".data ∧ e.attrs.id = some "toc".data))
    (hhead : ∀ e ∈ elemNodesList ([] : List (PyStr × Attrs)) doc,
      e.name ∉ ["h2".data, "h3".data, "h4".data, "h5".data, "h6".data]) :
    extractToc doc url = ScrapeResult.success url (pageTitle doc) [] 0 := by
  unfold extractToc
  have h1 : findElem doc (fun e =>
      e.name == "div".data && e.attrs.id == some "toc".data) = none := by
    unfold findElem
    rw [List.find?_eq_none]
    intro x hx
    have hd := hdiv x hx
    simp only [Bool.and_eq_true, beq_iff_eq]
    intro hcon
    exact hd hcon
  have h2 : tocItemsFallback doc = [] := by
    unfold tocItemsFallback
    have hfil : (elemNodesList ([] : List (PyStr × Attrs)) doc).filter
        (fun e => ["h2".data, "h3".data, "h4".data, "h5".data,
          "h6".data].contains e.name) = [] := by
      rw [List.filter_eq_nil_iff]
      intro e he
      have := hhead e he
      simpa using this
    rw [hfil]
    rfl
  rw [h1, h2]
  rfl

/-- C6 witness: a concrete document with neither TOC container nor
headings. -/
theorem C6_witness :
    extractToc [Node.elem "html".data {} [Node.text "x".data]] "u".data =
      ScrapeResult.success "u".data
        (pageTitle [Node.elem "html".data {} [Node.text "x".data]]) [] 0 :=
  C6_theorem _ _ (by decide) (by decide)

/-- C1 counterexample: `WP:TEST` reaches the namespace check (steps 1-8
pass), its decoded name starts with `WP:` from the claimed table, yet the
validator accepts it: the code's table contains neither `WP:` nor the
Japanese administrative shortcuts. -/
theorem C1_counterexample :
    validateSteps18 (some "https://en.wikipedia.org/wiki/WP:TEST".data) =
      Sum.inr "WP:TEST".data ∧
    ciStartsWith "WP:TEST".data "WP:".data = true ∧
    validate_wikipedia_url (some "https://en.wikipedia.org/wiki/WP:TEST".data) =
      (true, []) := by
  exact ⟨by decide, by decide, by decide⟩

/-- C1 (amended): for every URL that passes steps 1-8, if the decoded
article name starts case-insensitively with a prefix of the code's
forbidden-namespace table, the validator rejects it with the reason naming
the (first) matched namespace and citing the robots.txt prohibition. -/
theorem C1_theorem (url : Option PyStr) (name p : PyStr)
    (hsteps : validateSteps18 url = Sum.inr name)
    (hp : p ∈ forbiddenPatterns) (hm : ciStartsWith name p = true) :
    ∃ q ∈ forbiddenPatterns, ciStartsWith name q = true ∧
      validate_wikipedia_url url = (false, forbiddenReason q) := by
  have hsome : (findForbidden name).isSome := by
    unfold findForbidden
    rw [List.find?_isSome]
    exact ⟨p, hp, hm⟩
  obtain ⟨q, hq⟩ := Option.isSome_iff_exists.mp hsome
  refine ⟨q, List.mem_of_find?_eq_some hq, List.find?_some hq, ?_⟩
  unfold validate_wikipedia_url
  rw [hsteps]
  dsimp only
  unfold checkNamespaces
  rw [hq]

/-- C1 witness: the `User:` namespace is rejected with its reason. -/
theorem C1_witness :
    ∃ q ∈ forbiddenPatterns, ciStartsWith "User:TestUser".data q = true ∧
      validate_wikipedia_url
          (some "https://en.wikipedia.org/wiki/User:TestUser".data) =
        (false, forbiddenReason q) :=
  C1_theorem (some "https://en.wikipedia.org/wiki/User:TestUser".data)
    "User:TestUser".data "User:".data (by decide) (by decide) (by decide)

/-- C7 counterexample: the 405 method-rejection response carries
`Content-Type: application/json` without the `charset=utf-8` parameter. -/
theorem C7_counterexample :
    (lambda_handler (fun _ => ScrapeResult.failure [] [])
        ⟨some "POST".data, none⟩).headers.lookup "Content-Type".data =
      some "application/json".data ∧
    (lambda_handler (fun _ => ScrapeResult.failure [] [])
        ⟨some "POST".data, none⟩).headers.lookup "Content-Type".data ≠
      some "application/json; charset=utf-8".data := by
  exact ⟨by decide, by decide⟩

/-- C7 (amended): every handler response carries
`Access-Control-Allow-Origin: *` and a `Content-Type` header; the content
type is `application/json; charset=utf-8` on every path except the 405
method rejection, which sends plain `application/json`; the
uncaught-exception response also carries the charset-tagged pair. -/
theorem C7_theorem (scrape : PyStr → ScrapeResult) (e : Event) (m : PyStr) :
    ((lambda_handler scrape e).headers.lookup
        "Access-Control-Allow-Origin".data = some "*".data ∧
      (lambda_handler scrape e).headers.lookup "Content-Type".data =
        some (if (lambda_handler scrape e).statusCode = 405 then
          "application/json".data else "application/json; charset=utf-8".data)) ∧
    ((internalErrorResponse m).headers.lookup
        "Access-Control-Allow-Origin".data = some "*".data ∧
      (internalErrorResponse m).headers.lookup "Content-Type".data =
        some "application/json; charset=utf-8".data) := by
  refine ⟨?_, rfl, rfl⟩
  rcases handler_shape scrape e with ⟨h405, hh, _⟩ | ⟨hne, hh | hh, _⟩
  · rw [hh, if_pos h405]
    exact ⟨by decide, by decide⟩
  · rw [hh, if_neg hne]
    exact ⟨by decide, by decide⟩
  · rw [hh, if_neg hne]
    exact ⟨by decide, by decide⟩

/-- C7 witness at a concrete rejected request. -/
theorem C7_witness :
    (((lambda_handler (fun _ => ScrapeResult.failure [] [])
        ⟨some "POST".data, none⟩).headers.lookup
        "Access-Control-Allow-Origin".data = some "*".data ∧
      (lambda_handler (fun _ => ScrapeResult.failure [] [])
          ⟨some "POST".data, none⟩).headers.lookup "Content-Type".data =
        some (if (lambda_handler (fun _ => ScrapeResult.failure [] [])
            ⟨some "POST".data, none⟩).statusCode = 405 then
          "application/json".data else "application/json; charset=utf-8".data)) ∧
    ((internalErrorResponse "boom".data).headers.lookup
        "Access-Control-Allow-Origin".data = some "*".data ∧
      (internalErrorResponse "boom".data).headers.lookup "Content-Type".data =
        some "application/json; charset=utf-8".data)) :=
  C7_theorem (fun _ => ScrapeResult.failure [] []) ⟨some "POST".data, none⟩
    "boom".data

/-- C10: an event with no `httpMethod` field is handled exactly like GET,
and 405 is returned precisely when a method is present and differs from
GET. -/
theorem C10_theorem (scrape : PyStr → ScrapeResult) (e : Event) :
    lambda_handler scrape { e with httpMethod := none } =
      lambda_handler scrape { e with httpMethod := some "GET".data } ∧
    ((lambda_handler scrape e).statusCode = 405 ↔
      ∃ m, e.httpMethod = some m ∧ m ≠ "GET".data) := by
  refine ⟨handler_none_eq_get scrape e, ?_, ?_⟩
  · intro h405
    rcases handler_shape scrape e with ⟨_, _, hm⟩ | ⟨hne, _, _⟩
    · exact hm
    · exact absurd h405 hne
  · rintro ⟨m, hm, hne⟩
    rcases handler_shape scrape e with ⟨h405, _, _⟩ | ⟨_, _, hmet | hmet⟩
    · exact h405
    · rw [hm] at hmet
      exact Option.noConfusion hmet
    · rw [hm] at hmet
      injection hmet with h2
      exact absurd h2 hne

/-- C10 witness at a method-less event. -/
theorem C10_witness :
    lambda_handler (fun _ => ScrapeResult.failure [] [])
        { httpMethod := none, queryStringParameters := none } =
      lambda_handler (fun _ => ScrapeResult.failure [] [])
        { httpMethod := some "GET".data, queryStringParameters := none } ∧
    ((lambda_handler (fun _ => ScrapeResult.failure [] [])
        ⟨none, none⟩).statusCode = 405 ↔
      ∃ m, (Event.mk none none).httpMethod = some m ∧ m ≠ "GET".data) :=
  C10_theorem (fun _ => ScrapeResult.failure [] []) ⟨none, none⟩

end TocScraper

namespace TocScraper

/-! ### Strip lemmas and C9 -/

lemma rstrip_eq_rdropWhile (l : PyStr) :
    rstripWs l = List.rdropWhile pyIsSpace l := rfl

/-- Heads surviving `dropWhile` fail the predicate. -/
lemma head?_dropWhile_false {p : Char → Bool} {l : PyStr} {a : Char}
    (h : (l.dropWhile p).head? = some a) : p a = false := by
  have hx := List.head?_dropWhile_not p l
  rw [h] at hx
  exact hx

lemma dropWhile_eq_self_of_head? {p : Char → Bool} {l : PyStr}
    (h : ∀ a, l.head? = some a → p a = false) : l.dropWhile p = l := by
  cases l with
  | nil => rfl
  | cons x xs =>
    rw [List.dropWhile_cons_of_neg]
    simp [h x rfl]

/-- `str.strip()` is idempotent. -/
lemma pyStrip_idem (l : PyStr) : pyStrip (pyStrip l) = pyStrip l := by
  unfold pyStrip
  have h1 : lstripWs (rstripWs (lstripWs l)) = rstripWs (lstripWs l) := by
    apply dropWhile_eq_self_of_head?
    intro a ha
    obtain ⟨t, ht⟩ := List.rdropWhile_prefix (p := pyIsSpace) (l := lstripWs l)
    rw [rstrip_eq_rdropWhile] at ha
    have hx : (lstripWs l).head? = some a := by
      rw [← ht, List.head?_append, ha]
      rfl
    exact head?_dropWhile_false hx
  rw [h1]
  simp only [rstrip_eq_rdropWhile]
  exact List.rdropWhile_idempotent pyIsSpace _

/-- Steps 1-8 behave identically on a URL and on its trimmed form. -/
lemma steps18_strip (u : PyStr) :
    validateSteps18 (some u) = validateSteps18 (some (pyStrip u)) := by
  unfold validateSteps18
  dsimp only
  by_cases h0 : u = []
  · subst h0; rfl
  · rw [pyStrip_idem]
    by_cases hS : pyStrip u = []
    · simp [h0, hS]
    · simp [h0, hS]

/-- C9: validation of any URL equals validation of its trimmed form: the
whole rule chain operates on the stripped string. -/
theorem C9_theorem (u : PyStr) :
    validate_wikipedia_url (some u) =
      validate_wikipedia_url (some (pyStrip u)) := by
  unfold validate_wikipedia_url
  rw [steps18_strip]

/-- C9 witness at a concrete padded URL. -/
theorem C9_witness :
    validate_wikipedia_url (some "  https://en.wikipedia.org/wiki/Test ".data) =
      validate_wikipedia_url
        (some (pyStrip "  https://en.wikipedia.org/wiki/Test ".data)) :=
  C9_theorem "  https://en.wikipedia.org/wiki/Test ".data

end TocScraper

namespace TocScraper

/-! ### splitFirst and parse lemmas -/

lemma splitFirst_cons (d : Char) (s : PyStr) (c : Char) :
    splitFirst (d :: s) c =
      if d = c then some ([], s)
      else (splitFirst s c).map (fun p => (d :: p.1, p.2)) := by
  unfold splitFirst
  by_cases hd : d = c
  · subst hd
    rw [if_pos rfl]
    rw [List.dropWhile_cons_of_neg (by simp), List.takeWhile_cons_of_neg (by simp)]
  · rw [if_neg hd]
    rw [List.dropWhile_cons_of_pos (by simp [hd]),
      List.takeWhile_cons_of_pos (by simp [hd])]
    cases s.dropWhile (fun x => x != c) with
    | nil => rfl
    | cons h t => rfl

lemma splitFirst_append_left {a : PyStr} (b : PyStr) {c : Char} {x y : PyStr}
    (h : splitFirst a c = some (x, y)) :
    splitFirst (a ++ b) c = some (x, y ++ b) := by
  induction a generalizing x y with
  | nil => simp [splitFirst] at h
  | cons d a ih =>
    rw [List.cons_append, splitFirst_cons]
    rw [splitFirst_cons] at h
    by_cases hd : d = c
    · rw [if_pos hd] at h ⊢
      injection h with h
      injection h with h1 h2
      rw [← h1, ← h2]
    · rw [if_neg hd] at h ⊢
      cases hsf : splitFirst a c with
      | none => rw [hsf] at h; simp at h
      | some p =>
        obtain ⟨x1, y1⟩ := p
        rw [hsf] at h
        simp only [Option.map_some'] at h
        injection h with h
        injection h with h1 h2
        rw [ih hsf]
        simp only [Option.map_some']
        rw [← h1, ← h2]

lemma splitFirst_not_mem {a : PyStr} {c : Char} (h : c ∉ a) :
    splitFirst a c = none := by
  induction a with
  | nil => rfl
  | cons d a ih =>
    rw [splitFirst_cons, if_neg (by rintro rfl; exact h (List.mem_cons_self _ _))]
    rw [ih (fun hm => h (List.mem_cons_of_mem d hm))]
    rfl

lemma splitFirst_append_not_mem {a : PyStr} (b : PyStr) {c : Char} (h : c ∉ a) :
    splitFirst (a ++ b) c = (splitFirst b c).map (fun p => (a ++ p.1, p.2)) := by
  induction a with
  | nil =>
    simp only [List.nil_append]
    cases splitFirst b c with
    | none => rfl
    | some p => rfl
  | cons d a ih =>
    rw [List.cons_append, splitFirst_cons,
      if_neg (by rintro rfl; exact h (List.mem_cons_self _ _)),
      ih (fun hm => h (List.mem_cons_of_mem d hm))]
    cases splitFirst b c with
    | none => rfl
    | some p => rfl

lemma startsWithL_append (a b p : PyStr) (h : p.length ≤ a.length) :
    startsWithL (a ++ b) p = startsWithL a p := by
  unfold startsWithL
  rw [List.take_append_of_le_length h]

lemma mem_of_contains {l : PyStr} {c : Char} (h : l.contains c = true) :
    c ∈ l :=
  List.elem_iff.mp h

lemma contains_of_mem {l : PyStr} {c : Char} (h : c ∈ l) :
    l.contains c = true :=
  List.elem_iff.mpr h

lemma contains_eq_false {l : PyStr} {c : Char} (h : c ∉ l) :
    l.contains c = false := by
  rw [← Bool.not_eq_true]
  intro hc
  exact h (mem_of_contains hc)

lemma pyStrip_eq_self {l : PyStr}
    (h1 : ∀ a, l.head? = some a → pyIsSpace a = false)
    (h2 : ∀ a, l.getLast? = some a → pyIsSpace a = false) : pyStrip l = l := by
  unfold pyStrip
  rw [show lstripWs l = l from dropWhile_eq_self_of_head? h1]
  rw [rstrip_eq_rdropWhile, List.rdropWhile_eq_self_iff]
  intro hl
  have := h2 (l.getLast hl) (List.getLast?_eq_getLast l hl)
  simp [this]

end TocScraper

namespace TocScraper

/-! ### Evaluation of the validator on wikiUrl-shaped inputs (C3) -/

lemma all_urlSafe_mem {s : PyStr} (h : s.all urlSafeChar = true) {c : Char}
    (hc : c ∈ s) :
    ¬(c = '#') ∧ ¬(c = '?') ∧ ¬(c = '\t') ∧ ¬(c = '\r') ∧ ¬(c = '\n') := by
  simpa [urlSafeChar, and_assoc] using List.all_eq_true.mp h c hc

lemma removeUnsafe_eq_self {s : PyStr} (h : s.all urlSafeChar = true) :
    removeUnsafe s = s := by
  unfold removeUnsafe
  rw [List.filter_eq_self]
  intro a ha
  obtain ⟨_, _, h3, h4, h5⟩ := all_urlSafe_mem h ha
  simp [h3, h4, h5]

lemma removeUnsafe_append (a b : PyStr) :
    removeUnsafe (a ++ b) = removeUnsafe a ++ removeUnsafe b := by
  unfold removeUnsafe
  rw [List.filter_append]

lemma pySplitScheme_wiki (s : PyStr) :
    pySplitScheme ("https://en.wikipedia.org/wiki/".data ++ s) =
      ("https".data, "//en.wikipedia.org/wiki/".data ++ s) := by
  unfold pySplitScheme
  rw [splitFirst_append_left s
    (by decide : splitFirst "https://en.wikipedia.org/wiki/".data ':' =
      some ("https".data, "//en.wikipedia.org/wiki/".data))]
  dsimp only
  split
  · rfl
  · rename_i h
    exact absurd (by decide) h

lemma pySplitNetloc_wiki (s : PyStr) :
    pySplitNetloc ("//en.wikipedia.org/wiki/".data ++ s) =
      ("en.wikipedia.org".data, "/wiki/".data ++ s) := by
  unfold pySplitNetloc
  rw [startsWithL_append "//en.wikipedia.org/wiki/".data s "//".data (by decide)]
  split
  · rw [List.drop_append_of_le_length
      (by decide : 2 ≤ ("//en.wikipedia.org/wiki/".data : PyStr).length),
      (by decide : List.drop 2 "//en.wikipedia.org/wiki/".data =
        "en.wikipedia.org/wiki/".data)]
    rw [List.takeWhile_append]
    split
    · rename_i h
      exact absurd h (by decide)
    · rw [(by decide : List.takeWhile notNetlocDelim
        "en.wikipedia.org/wiki/".data = "en.wikipedia.org".data)]
      rw [List.drop_append_of_le_length
        (by decide : ("en.wikipedia.org".data : PyStr).length ≤
          ("en.wikipedia.org/wiki/".data : PyStr).length),
        (by decide : List.drop ("en.wikipedia.org".data : PyStr).length
          "en.wikipedia.org/wiki/".data = "/wiki/".data)]
  · rename_i h
    exact absurd (by decide) h

/-- The `urlsplit` stage on the fixed article prefix followed by a
parsing-inert article string. -/
lemma pyUrlsplit_wikiUrl (s : PyStr) (hsafe : s.all urlSafeChar = true) :
    pyUrlsplit (wikiUrl s) =
      some ⟨"https".data, "en.wikipedia.org".data, "/wiki/".data ++ s, [], []⟩ := by
  have hnosharp : '#' ∉ s := fun hm => (all_urlSafe_mem hsafe hm).1 rfl
  have hnoq : '?' ∉ s := fun hm => (all_urlSafe_mem hsafe hm).2.1 rfl
  unfold wikiUrl pyUrlsplit
  rw [removeUnsafe_append,
    (by decide : removeUnsafe "https://en.wikipedia.org/wiki/".data =
      "https://en.wikipedia.org/wiki/".data),
    removeUnsafe_eq_self hsafe]
  rw [pySplitScheme_wiki]
  dsimp only
  rw [pySplitNetloc_wiki]
  dsimp only
  split
  · rename_i h
    exact absurd h (by decide)
  · rw [splitFirst_append_not_mem s (by decide : '#' ∉ ("/wiki/".data : PyStr)),
      splitFirst_not_mem hnosharp]
    simp only [Option.map_none']
    rw [splitFirst_append_not_mem s (by decide : '?' ∉ ("/wiki/".data : PyStr)),
      splitFirst_not_mem hnoq]
    simp only [Option.map_none']

/-- Steps 1-8 on a wikiUrl-shaped URL whose article string has no literal
`;` (so `urlparse` performs no params split) reduce to the decoded-article
test: the outcome then depends on the article string only through
`unquote`. -/
lemma steps18_wikiUrl (s : PyStr) (hs : urlSafe s) (hsemi : ';' ∉ s) :
    validateSteps18 (some (wikiUrl s)) =
      if unquote s = [] then Sum.inl (false, rArticleRequired)
      else Sum.inr (unquote s) := by
  obtain ⟨h1, h2⟩ := hs
  have hstrip : pyStrip (wikiUrl s) = wikiUrl s := by
    apply pyStrip_eq_self
    · intro a ha
      unfold wikiUrl at ha
      rw [List.head?_append] at ha
      have : a = 'h' := by
        have hh : ("https://en.wikipedia.org/wiki/".data).head?.or s.head? =
            some 'h' := rfl
        rw [hh] at ha
        injection ha with ha
        exact ha.symm
      rw [this]
      decide
    · intro a ha
      unfold wikiUrl at ha
      rw [List.getLast?_append] at ha
      cases hlast : s.getLast? with
      | some c =>
        rw [hlast, Option.or_some] at ha
        injection ha with ha
        unfold lastNotSpace at h2
        rw [hlast] at h2
        rw [← ha]
        simpa using h2
      | none =>
        rw [hlast, Option.none_or] at ha
        have : a = '/' := by
          have hh : ("https://en.wikipedia.org/wiki/".data).getLast? =
              some '/' := by decide
          rw [hh] at ha
          injection ha with ha
          exact ha.symm
        rw [this]
        decide
  have hparse : pyUrlparse (wikiUrl s) =
      some ⟨"https".data, "en.wikipedia.org".data,
        "/wiki/".data ++ s, [], []⟩ := by
    unfold pyUrlparse
    rw [pyUrlsplit_wikiUrl s h1]
    dsimp only
    rw [if_neg]
    intro hc
    rw [Bool.and_eq_true] at hc
    have hmem : ';' ∈ ("/wiki/".data : PyStr) ++ s := mem_of_contains hc.2
    rw [List.mem_append] at hmem
    rcases hmem with hmem | hmem
    · exact absurd hmem (by decide)
    · exact hsemi hmem
  unfold validateSteps18
  dsimp only
  rw [if_neg (by simp [wikiUrl]), hstrip, if_neg (by simp [wikiUrl]), hparse]
  dsimp only
  rw [if_neg (by decide)]
  rw [if_neg (by decide)]
  rw [if_neg (by decide)]
  rw [startsWithL_append "/wiki/".data s "/wiki/".data (by decide),
    if_neg (by decide)]
  rw [startsWithL_append "/wiki/".data s "/w/".data (by decide),
    if_neg (by decide)]
  rw [startsWithL_append "/wiki/".data s "/api/".data (by decide),
    if_neg (by decide)]
  rw [startsWithL_append "/wiki/".data s "/trap/".data (by decide),
    if_neg (by decide)]
  rw [List.drop_left' (by decide : ("/wiki/".data : PyStr).length = 6)]
  by_cases he : unquote s = []
  · rw [if_pos (by simp [he]), if_pos he]
  · rw [if_neg (by simp [he]), if_neg he]

/-- C3 counterexample: `;User:x` and `%3BUser:x` percent-decode to the same
article name, yet validate differently: `urlparse` (line 49) strips
`;params` from the path of the literal form before decoding, leaving an
empty article (`Article name is required`), while the percent-encoded form
survives parsing and is accepted. -/
theorem C3_counterexample :
    urlSafe ";User:x".data ∧ urlSafe "%3BUser:x".data ∧
    unquote ";User:x".data = unquote "%3BUser:x".data ∧
    validate_wikipedia_url (some (wikiUrl ";User:x".data)) =
      (false, rArticleRequired) ∧
    validate_wikipedia_url (some (wikiUrl "%3BUser:x".data)) = (true, []) := by
  exact ⟨⟨by decide, by decide⟩, ⟨by decide, by decide⟩, by decide,
    by decide, by decide⟩

/-- C3 (amended): for article strings containing no literal `;` — so that
`urlparse` performs no params split — validation of a wikiUrl-shaped URL is
a function of the percent-decoded article name: two such strings decoding
alike validate alike, so a percent-encoded forbidden namespace rejects
identically to its literal form.  (A literal `;` breaks the equivalence:
the path is truncated at the `;` before decoding.) -/
theorem C3_theorem (s t : PyStr) (hs : urlSafe s) (ht : urlSafe t)
    (hns : ';' ∉ s) (hnt : ';' ∉ t)
    (h : unquote s = unquote t) :
    validate_wikipedia_url (some (wikiUrl s)) =
      validate_wikipedia_url (some (wikiUrl t)) := by
  unfold validate_wikipedia_url
  rw [steps18_wikiUrl s hs hns, steps18_wikiUrl t ht hnt, h]

/-- C3 witness: `User%3ATestUser` and `User:TestUser` decode alike and are
both rejected with the `User:` namespace reason. -/
theorem C3_witness :
    urlSafe "User%3ATestUser".data ∧ urlSafe "User:TestUser".data ∧
    unquote "User%3ATestUser".data = unquote "User:TestUser".data ∧
    validate_wikipedia_url (some (wikiUrl "User%3ATestUser".data)) =
      validate_wikipedia_url (some (wikiUrl "User:TestUser".data)) ∧
    validate_wikipedia_url (some (wikiUrl "User:TestUser".data)) =
      (false, forbiddenReason "User:".data) :=
  ⟨⟨by decide, by decide⟩, ⟨by decide, by decide⟩, by decide,
   C3_theorem "User%3ATestUser".data "User:TestUser".data
     ⟨by decide, by decide⟩ ⟨by decide, by decide⟩ (by decide) (by decide)
     (by decide),
   by decide⟩

end TocScraper

namespace TocScraper

/-! ### Whitespace-collapse lemmas and C5 -/

lemma headIsSpace_collapseWsGo_true (s : PyStr) :
    headIsSpace (collapseWsGo s true) = false := by
  induction s with
  | nil => rfl
  | cons c rest ih =>
    simp only [collapseWsGo]
    by_cases hc : pyIsSpace c
    · rw [if_pos hc, if_pos (by trivial)]
      exact ih
    · rw [if_neg hc]
      simpa [headIsSpace] using hc

/-- The collapser's output is collapsed. -/
lemma spaceOk_collapseWsGo (s : PyStr) (b : Bool) :
    spaceOk (collapseWsGo s b) = true := by
  induction s generalizing b with
  | nil => rfl
  | cons c rest ih =>
    simp only [collapseWsGo]
    by_cases hc : pyIsSpace c
    · rw [if_pos hc]
      cases b with
      | true =>
        rw [if_pos (by trivial)]
        exact ih true
      | false =>
        rw [if_neg (by decide)]
        simp only [spaceOk]
        rw [headIsSpace_collapseWsGo_true, ih true]
        decide
    · rw [if_neg hc]
      simp only [spaceOk]
      rw [ih false]
      simp [hc]

lemma collapseWsGo_true_of_headIsSpace_false {s : PyStr}
    (h : headIsSpace s = false) : collapseWsGo s true = collapseWsGo s false := by
  cases s with
  | nil => rfl
  | cons c rest =>
    simp only [headIsSpace] at h
    simp only [collapseWsGo]
    rw [if_neg (by simp [h]), if_neg (by simp [h])]

/-- Collapsed strings are fixed points of the collapser. -/
lemma collapseWs_eq_self_of_spaceOk {s : PyStr} (h : spaceOk s = true) :
    collapseWs s = s := by
  unfold collapseWs
  induction s with
  | nil => rfl
  | cons c rest ih =>
    simp only [spaceOk] at h
    rw [Bool.and_eq_true] at h
    obtain ⟨hc, hrest⟩ := h
    simp only [collapseWsGo]
    by_cases hsp : pyIsSpace c
    · rw [if_pos hsp, if_neg (by decide)]
      simp only [hsp, Bool.not_true, Bool.false_or, Bool.and_eq_true,
        beq_iff_eq, Bool.not_eq_true'] at hc
      obtain ⟨hceq, hhead⟩ := hc
      rw [collapseWsGo_true_of_headIsSpace_false hhead, ih hrest, hceq]
    · rw [if_neg hsp, ih hrest]

lemma spaceOk_cons {c : Char} {rest : PyStr} (h : spaceOk (c :: rest) = true) :
    spaceOk rest = true := by
  unfold spaceOk at h
  rw [Bool.and_eq_true] at h
  exact h.2

lemma spaceOk_dropWhile {p : Char → Bool} {s : PyStr} (h : spaceOk s = true) :
    spaceOk (s.dropWhile p) = true := by
  induction s with
  | nil => exact h
  | cons c rest ih =>
    rw [List.dropWhile_cons]
    split
    · exact ih (spaceOk_cons h)
    · exact h

lemma headIsSpace_append {a b : PyStr} (ha : a ≠ []) :
    headIsSpace (a ++ b) = headIsSpace a := by
  cases a with
  | nil => exact absurd rfl ha
  | cons c t => rfl

lemma spaceOk_append_left {a b : PyStr} (h : spaceOk (a ++ b) = true) :
    spaceOk a = true := by
  induction a with
  | nil => rfl
  | cons c rest ih =>
    rw [List.cons_append] at h
    simp only [spaceOk] at h ⊢
    rw [Bool.and_eq_true] at h ⊢
    obtain ⟨hc, htail⟩ := h
    refine ⟨?_, ih htail⟩
    cases rest with
    | nil =>
      rw [Bool.or_eq_true] at hc ⊢
      rcases hc with h1 | h1
      · exact Or.inl h1
      · rw [Bool.and_eq_true] at h1
        refine Or.inr ?_
        rw [Bool.and_eq_true]
        exact ⟨h1.1, by decide⟩
    | cons d t =>
      rw [headIsSpace_append (by simp)] at hc
      exact hc

lemma spaceOk_pyStrip {s : PyStr} (h : spaceOk s = true) :
    spaceOk (pyStrip s) = true := by
  unfold pyStrip
  have h1 : spaceOk (lstripWs s) = true := spaceOk_dropWhile h
  rw [rstrip_eq_rdropWhile]
  obtain ⟨t, ht⟩ :=
    List.rdropWhile_prefix (p := pyIsSpace) (l := lstripWs s)
  rw [← ht] at h1
  exact spaceOk_append_left h1

/-- The primary-path title shape is collapsed. -/
lemma collapse_strip_collapse (x : PyStr) :
    collapseWs (pyStrip (collapseWs x)) = pyStrip (collapseWs x) :=
  collapseWs_eq_self_of_spaceOk (spaceOk_pyStrip (spaceOk_collapseWsGo x false))

/-- The fallback-path title shape is collapsed. -/
lemma collapse_collapse (x : PyStr) :
    collapseWs (collapseWs x) = collapseWs x :=
  collapseWs_eq_self_of_spaceOk (spaceOk_collapseWsGo x false)

lemma eq_cons_of_startsWith_hash {s : PyStr}
    (h : startsWithL s "#".data = true) : s = '#' :: s.drop 1 := by
  cases s with
  | nil => simp [startsWithL] at h
  | cons c t =>
    unfold startsWithL at h
    simp only [List.length_cons, List.take, beq_iff_eq] at h
    have : c = '#' := by
      have := congrArg (fun l => l.headD ' ') h
      simpa using this
    rw [this]
    rfl

lemma rstrip_decomp (y : PyStr) :
    ∃ t, y = rstripWs y ++ t ∧ ∀ c ∈ t, pyIsSpace c = true := by
  refine ⟨(y.reverse.takeWhile pyIsSpace).reverse, ?_, ?_⟩
  · unfold rstripWs
    rw [← List.reverse_append, List.takeWhile_append_dropWhile,
      List.reverse_reverse]
  · intro c hc
    rw [List.mem_reverse] at hc
    exact List.mem_takeWhile_imp hc

lemma head?_pyStrip {x : PyStr} {a : Char}
    (h : (pyStrip x).head? = some a) : pyIsSpace a = false := by
  obtain ⟨t, ht, _⟩ := rstrip_decomp (lstripWs x)
  have hx : (lstripWs x).head? = some a := by
    rw [ht, List.head?_append]
    unfold pyStrip at h
    rw [h]
    rfl
  exact head?_dropWhile_false hx

lemma getLast?_pyStrip {x : PyStr} {a : Char}
    (h : (pyStrip x).getLast? = some a) : pyIsSpace a = false := by
  unfold pyStrip rstripWs at h
  rw [List.getLast?_reverse] at h
  exact head?_dropWhile_false h

/-- A head of joined stripped strings is not whitespace. -/
lemma head?_flatten_strip :
    ∀ (l : List PyStr) {a : Char},
      ((l.map pyStrip).flatten).head? = some a → pyIsSpace a = false := by
  intro l
  induction l with
  | nil =>
    intro a h
    simp at h
  | cons x xs ih =>
    intro a h
    rw [List.map_cons, List.flatten_cons, List.head?_append] at h
    cases hx : (pyStrip x).head? with
    | some b =>
      rw [hx, Option.or_some] at h
      injection h with h
      subst h
      exact head?_pyStrip hx
    | none =>
      rw [hx, Option.none_or] at h
      exact ih h

/-- A last character of joined stripped strings is not whitespace. -/
lemma getLast?_flatten_strip :
    ∀ (l : List PyStr) {a : Char},
      ((l.map pyStrip).flatten).getLast? = some a → pyIsSpace a = false := by
  intro l
  induction l with
  | nil =>
    intro a h
    simp at h
  | cons x xs ih =>
    intro a h
    rw [List.map_cons, List.flatten_cons, List.getLast?_append] at h
    cases hx : ((xs.map pyStrip).flatten).getLast? with
    | some b =>
      rw [hx, Option.or_some] at h
      injection h with h
      subst h
      exact ih hx
    | none =>
      rw [hx, Option.none_or] at h
      exact getLast?_pyStrip h

/-- Whitespace collapsing keeps a non-whitespace head. -/
lemma collapseWs_head_nonspace {g : PyStr}
    (hg : ∀ b, g.head? = some b → pyIsSpace b = false) :
    ∀ a, (collapseWs g).head? = some a → pyIsSpace a = false := by
  intro a h
  cases g with
  | nil => simp [collapseWs, collapseWsGo] at h
  | cons c r =>
    have hc := hg c rfl
    unfold collapseWs collapseWsGo at h
    rw [if_neg (by rw [hc]; simp), List.head?_cons] at h
    injection h with h
    subst h
    exact hc

/-- Whitespace collapsing keeps a non-whitespace last character. -/
lemma collapseWsGo_getLast :
    ∀ (s : PyStr) (flag : Bool) {a : Char},
      s.getLast? = some a → pyIsSpace a = false →
      (collapseWsGo s flag).getLast? = some a := by
  intro s
  induction s with
  | nil =>
    intro flag a h _
    simp at h
  | cons c r ih =>
    intro flag a h ha
    cases r with
    | nil =>
      rw [List.getLast?_singleton] at h
      injection h with h
      subst h
      unfold collapseWsGo
      rw [if_neg (by rw [ha]; simp)]
      rfl
    | cons d r2 =>
      rw [List.getLast?_cons_cons] at h
      unfold collapseWsGo
      by_cases hc : pyIsSpace c = true
      · rw [if_pos hc]
        cases flag with
        | true =>
          rw [if_pos rfl]
          exact ih true h ha
        | false =>
          rw [if_neg (by simp)]
          have hih := ih true h ha
          cases hgo : collapseWsGo (d :: r2) true with
          | nil =>
            rw [hgo] at hih
            simp at hih
          | cons e l2 =>
            rw [hgo] at hih
            rw [List.getLast?_cons_cons]
            exact hih
      · rw [if_neg hc]
        have hih := ih false h ha
        cases hgo : collapseWsGo (d :: r2) false with
        | nil =>
          rw [hgo] at hih
          simp at hih
        | cons e l2 =>
          rw [hgo] at hih
          rw [List.getLast?_cons_cons]
          exact hih

lemma collapseWs_getLast_nonspace {g : PyStr}
    (hg : ∀ b, g.getLast? = some b → pyIsSpace b = false) :
    ∀ a, (collapseWs g).getLast? = some a → pyIsSpace a = false := by
  intro a h
  cases hgl : g.getLast? with
  | none =>
    rw [List.getLast?_eq_none_iff] at hgl
    subst hgl
    simp [collapseWs, collapseWsGo] at h
  | some b =>
    have hb := hg b hgl
    have hcg := collapseWsGo_getLast g false hgl hb
    unfold collapseWs at h
    rw [hcg] at h
    injection h with h
    subst h
    exact hb

/-- A collapsed join of stripped strings is `strip`-fixed: it carries no
leading or trailing whitespace. -/
lemma pyStrip_collapse_flatten (l : List PyStr) :
    pyStrip (collapseWs ((l.map pyStrip).flatten)) =
      collapseWs ((l.map pyStrip).flatten) :=
  pyStrip_eq_self
    (collapseWs_head_nonspace (fun b hb => head?_flatten_strip l hb))
    (collapseWs_getLast_nonspace (fun b hb => getLast?_flatten_strip l hb))

/-- Every entry the primary path emits has a non-empty collapsed and
trimmed title and `href = '#' ++ anchor`. -/
lemma tocItemOfLink_good {link : Located} {e : TocEntry}
    (h : tocItemOfLink link = some e) :
    e.title ≠ [] ∧ collapseWs e.title = e.title ∧
      pyStrip e.title = e.title ∧ e.href = '#' :: e.anchor := by
  unfold tocItemOfLink at h
  dsimp only at h
  split at h
  · split at h
    · exact absurd h (by simp)
    · rename_i hhash hskip
      injection h with h
      simp only [Bool.or_eq_true, not_or] at hskip
      obtain ⟨_, hne⟩ := hskip
      refine ⟨?_, ?_, ?_, ?_⟩ <;> rw [← h]
      · intro hnil
        exact hne (by simp only [List.isEmpty_eq_true]; exact hnil)
      · exact collapse_strip_collapse _
      · exact pyStrip_idem _
      · exact eq_cons_of_startsWith_hash hhash
  · exact absurd h (by simp)

/-- Every entry the fallback path emits has a non-empty collapsed and
trimmed title and `href = '#' ++ anchor` (the trimming comes from
`get_text(strip=True)`, which joins stripped fragments, so the collapsed
text starts and ends with a non-whitespace character). -/
lemma tocItemOfHeading_good {hd : Located} {e : TocEntry}
    (h : tocItemOfHeading hd = some e) :
    e.title ≠ [] ∧ collapseWs e.title = e.title ∧
      pyStrip e.title = e.title ∧ e.href = '#' :: e.anchor := by
  unfold tocItemOfHeading at h
  dsimp only at h
  split at h
  · rename_i hcond
    injection h with h
    simp only [Bool.and_eq_true, Bool.not_eq_true'] at hcond
    obtain ⟨⟨hne, _⟩, _⟩ := hcond
    refine ⟨?_, ?_, ?_, ?_⟩ <;> rw [← h]
    · intro hnil
      have : List.isEmpty (collapseWs (getTextStrip (stripEditList hd.children))) = true := by
        simp only [List.isEmpty_eq_true]
        exact hnil
      rw [this] at hne
      exact absurd hne (by simp)
    · exact collapse_collapse _
    · exact pyStrip_collapse_flatten _
  · exact absurd h (by simp)

/-- C5 (amended): every TocEntry produced by extraction, on either path,
has a non-empty title with single internal spaces (`collapseWs`-fixed) and
no leading or trailing whitespace (`pyStrip`-fixed), and its href is `#`
followed by its anchor; titles may retain leading ordinal numbering. -/
theorem C5_theorem (doc : List Node) (url t : PyStr)
    (toc : List TocEntry) (n : Nat) (e : TocEntry)
    (hx : extractToc doc url = ScrapeResult.success url t toc n)
    (he : e ∈ toc) :
    e.title ≠ [] ∧ collapseWs e.title = e.title ∧
      pyStrip e.title = e.title ∧ e.href = '#' :: e.anchor := by
  unfold extractToc at hx
  simp only [ScrapeResult.success.injEq] at hx
  obtain ⟨_, _, htoc, _⟩ := hx
  rw [← htoc] at he
  split at he
  · unfold tocItemsFallback at he
    obtain ⟨hd, _, hh⟩ := List.mem_filterMap.mp he
    exact tocItemOfHeading_good hh
  · split at he
    · unfold tocItemsPrimary at he
      obtain ⟨link, _, hl⟩ := List.mem_filterMap.mp he
      exact tocItemOfLink_good hl
    · exact absurd he (by simp)

/-- C5 counterexample: with no `div#toc`, the fallback path keeps the
leading ordinal of a heading: the emitted title is `1 Introduction`, which
begins with a digit followed by a space (the code's own ordinal stripper
would remove it). -/
theorem C5_counterexample :
    extractToc
        [Node.elem "h2".data ⟨some "intro".data, [], none⟩
          [Node.text "1 Introduction".data]] "u".data =
      ScrapeResult.success "u".data "Unknown".data
        [⟨2, "1 Introduction".data, "intro".data, "#intro".data⟩] 1 ∧
    List.take 2 "1 Introduction".data = "1 ".data ∧
    dropOrdinal "1 Introduction".data = "Introduction".data := by
  exact ⟨by decide, by decide, by decide⟩

/-- C5 witness on a concrete TOC document. -/
theorem C5_witness :
    (⟨1, "History".data, "Hist".data, "#Hist".data⟩ : TocEntry).title ≠ [] ∧
    collapseWs (⟨1, "History".data, "Hist".data, "#Hist".data⟩ : TocEntry).title =
      (⟨1, "History".data, "Hist".data, "#Hist".data⟩ : TocEntry).title ∧
    pyStrip (⟨1, "History".data, "Hist".data, "#Hist".data⟩ : TocEntry).title =
      (⟨1, "History".data, "Hist".data, "#Hist".data⟩ : TocEntry).title ∧
    (⟨1, "History".data, "Hist".data, "#Hist".data⟩ : TocEntry).href =
      '#' :: (⟨1, "History".data, "Hist".data, "#Hist".data⟩ : TocEntry).anchor :=
  C5_theorem
    [Node.elem "div".data ⟨some "toc".data, [], none⟩ [
      Node.elem "ul".data ⟨none, [], none⟩ [
        Node.elem "li".data ⟨none, ["toclevel-1".data], none⟩ [
          Node.elem "a".data ⟨none, [], some "#Hist".data⟩ [
            Node.elem "span".data ⟨none, ["toctext".data], none⟩
              [Node.text "History".data]]]]]]
    "u".data "Unknown".data
    [⟨1, "History".data, "Hist".data, "#Hist".data⟩] 1
    ⟨1, "History".data, "Hist".data, "#Hist".data⟩
    (by decide) (by decide)

end TocScraper

namespace TocScraper

/-! ### Whitespace character facts (C8) -/

lemma space_code_facts {c : Char} (h : pyIsSpace c = true) :
    ¬(48 ≤ c.toNat ∧ c.toNat ≤ 57) ∧ ¬(97 ≤ c.toNat ∧ c.toNat ≤ 102) ∧
    ¬(65 ≤ c.toNat ∧ c.toNat ≤ 70) ∧ ¬(65 ≤ c.toNat ∧ c.toNat ≤ 90) := by
  unfold pyIsSpace at h
  have hm : c.toNat ∈ spaceCodes := by simpa using h
  simp only [spaceCodes, List.mem_cons, List.not_mem_nil, or_false] at hm
  omega

lemma hexVal_space {c : Char} (h : pyIsSpace c = true) : hexVal c = none := by
  obtain ⟨h1, h2, h3, _⟩ := space_code_facts h
  unfold hexVal
  rw [if_neg h1, if_neg h2, if_neg h3]

lemma space_ne {c : Char} (h : pyIsSpace c = true) :
    c ≠ '%' ∧ c ≠ '#' ∧ c ≠ '?' := by
  refine ⟨?_, ?_, ?_⟩ <;> rintro rfl <;> exact absurd h (by decide)

lemma space_ne2 {c : Char} (h : pyIsSpace c = true) :
    c ≠ '/' ∧ c ≠ ';' := by
  refine ⟨?_, ?_⟩ <;> rintro rfl <;> exact absurd h (by decide)

lemma char_le_iff_toNat {a b : Char} : a ≤ b ↔ a.toNat ≤ b.toNat := Iff.rfl

lemma toLowerAscii_space {c : Char} (h : pyIsSpace c = true) :
    toLowerAscii c = c := by
  obtain ⟨_, _, _, h4⟩ := space_code_facts h
  unfold toLowerAscii
  rw [if_neg]
  intro hc
  rw [Bool.and_eq_true, decide_eq_true_iff, decide_eq_true_iff] at hc
  exact h4 ⟨char_le_iff_toNat.mp hc.1, char_le_iff_toNat.mp hc.2⟩

/-! ### Stripping around an appended suffix (C8) -/

lemma dropWhile_append_ne_nil {p : Char → Bool} {u : PyStr} (v : PyStr)
    (h : u.dropWhile p ≠ []) :
    (u ++ v).dropWhile p = u.dropWhile p ++ v := by
  rw [List.dropWhile_append, if_neg]
  simpa [List.isEmpty_eq_true] using h

lemma dropWhile_concat_neg {p : Char → Bool} {d : Char} (z : PyStr)
    (hd : p d = false) :
    (z ++ [d]).dropWhile p = z.dropWhile p ++ [d] := by
  rw [List.dropWhile_append]
  split
  · rename_i h
    rw [List.dropWhile_cons_of_neg (by simp [hd]),
      (by simpa [List.isEmpty_eq_true] using h : z.dropWhile p = []),
      List.nil_append]
  · rfl

lemma rstripWs_append_cons (v z : PyStr) {d : Char} (hd : pyIsSpace d = false) :
    rstripWs (v ++ d :: z) = v ++ d :: rstripWs z := by
  have h1 : (z.reverse ++ [d]).dropWhile pyIsSpace =
      z.reverse.dropWhile pyIsSpace ++ [d] := dropWhile_concat_neg _ hd
  unfold rstripWs
  rw [List.reverse_append, List.reverse_cons, List.dropWhile_append,
    if_neg (by rw [h1]; simp), h1]
  simp

lemma lstrip_decomp (u : PyStr) :
    ∃ t, lstripWs u = pyStrip u ++ t ∧ ∀ c ∈ t, pyIsSpace c = true := by
  refine ⟨((lstripWs u).reverse.takeWhile pyIsSpace).reverse, ?_, ?_⟩
  · unfold pyStrip rstripWs
    rw [← List.reverse_append, List.takeWhile_append_dropWhile,
      List.reverse_reverse]
  · intro c hc
    rw [List.mem_reverse] at hc
    exact List.mem_takeWhile_imp hc

lemma pyStrip_append_cons (u z : PyStr) {d : Char} (hd : pyIsSpace d = false)
    (hu : lstripWs u ≠ []) :
    pyStrip (u ++ d :: z) = lstripWs u ++ d :: rstripWs z := by
  unfold pyStrip
  rw [show lstripWs (u ++ d :: z) = lstripWs u ++ d :: z from
    dropWhile_append_ne_nil _ hu]
  exact rstripWs_append_cons _ _ hd

end TocScraper

namespace TocScraper

/-! ### Decoder and percent-scanner append lemmas (C8) -/

lemma utf8Lead_lo {b : Nat} {s4 : Utf8State} (h : utf8Lead b = Sum.inr s4) :
    128 ≤ s4.2.2.1 := by
  unfold utf8Lead at h
  split at h
  · exact absurd h (by simp)
  · split at h
    · injection h with h
      subst h
      dsimp only
      decide
    · split at h
      · injection h with h
        subst h
        dsimp only
        split <;> decide
      · split at h
        · injection h with h
          subst h
          dsimp only
          split <;> decide
        · exact absurd h (by simp)

lemma utf8_ascii {asc : List Nat} (h : ∀ b ∈ asc, b < 128) :
    utf8Go asc none = asc.map Char.ofNat := by
  induction asc with
  | nil => rfl
  | cons b rest ih =>
    have hb : utf8Lead b = Sum.inl (Char.ofNat b) := by
      unfold utf8Lead
      rw [if_pos (h b (List.mem_cons_self _ _))]
    simp only [utf8Go, hb, List.map_cons]
    rw [ih (fun x hx => h x (List.mem_cons_of_mem _ hx))]

lemma utf8Go_append_ascii {asc : List Nat} (hasc : ∀ b ∈ asc, b < 128) :
    ∀ (bs : List Nat) (st : Option Utf8State),
      (∀ s4, st = some s4 → 128 ≤ s4.2.2.1) →
      utf8Go (bs ++ asc) st = utf8Go bs st ++ asc.map Char.ofNat := by
  intro bs
  induction bs with
  | nil =>
    intro st hst
    cases st with
    | none => simpa using utf8_ascii hasc
    | some s4 =>
      obtain ⟨acc, need, lo, hi⟩ := s4
      have hlo : 128 ≤ lo := by simpa using hst _ rfl
      cases asc with
      | nil => rfl
      | cons a rest =>
        have ha : a < 128 := hasc a (List.mem_cons_self _ _)
        have hb : utf8Lead a = Sum.inl (Char.ofNat a) := by
          unfold utf8Lead
          rw [if_pos ha]
        simp only [List.nil_append, utf8Go]
        rw [if_neg (by simp only [Bool.and_eq_true, decide_eq_true_iff]; omega)]
        simp only [hb]
        rw [utf8_ascii (fun x hx => hasc x (List.mem_cons_of_mem _ hx))]
        simp
  | cons b bs ih =>
    intro st hst
    cases st with
    | none =>
      simp only [List.cons_append, utf8Go]
      simp only [List.append_eq]
      cases hb : utf8Lead b with
      | inl c =>
        simp only
        rw [ih none (fun s4 hh => Option.noConfusion hh)]
        simp
      | inr st2 =>
        simp only
        exact ih (some st2)
          (fun s4 hh => by injection hh with hh; exact hh ▸ utf8Lead_lo hb)
    | some s4 =>
      obtain ⟨acc, need, lo, hi⟩ := s4
      simp only [List.cons_append, utf8Go]
      simp only [List.append_eq]
      by_cases hcond : (decide (lo ≤ b) && decide (b ≤ hi)) = true
      · rw [if_pos hcond, if_pos hcond]
        by_cases hneed : need = 1
        · rw [if_pos hneed, if_pos hneed]
          rw [ih none (fun s4 hh => Option.noConfusion hh)]
          simp
        · rw [if_neg hneed, if_neg hneed]
          exact ih (some (acc * 64 + (b - 128), need - 1, 128, 191))
            (fun s4 hh => by injection hh with hh; rw [← hh])
      · rw [if_neg hcond, if_neg hcond]
        cases hb : utf8Lead b with
        | inl c =>
          simp only
          rw [ih none (fun s4 hh => Option.noConfusion hh)]
          simp
        | inr st2 =>
          simp only
          rw [ih (some st2)
            (fun s4 hh => by injection hh with hh; exact hh ▸ utf8Lead_lo hb)]
          simp

lemma utf8Decode_append_ascii {asc : List Nat} (h : ∀ b ∈ asc, b < 128)
    (buf : List Nat) :
    utf8DecodeReplace (buf ++ asc) =
      utf8DecodeReplace buf ++ asc.map Char.ofNat := by
  unfold utf8DecodeReplace
  exact utf8Go_append_ascii h buf none (fun s4 hh => Option.noConfusion hh)

end TocScraper

namespace TocScraper

/-! ### `unquote` is transparent to an appended whitespace suffix (C8) -/

lemma pyTokGo_append_safe {w : PyStr}
    (hw : ∀ c ∈ w, hexVal c = none ∧ c ≠ '%') :
    ∀ (x : PyStr) (st : Option (Option Char)),
      pyTokGo (x ++ w) st = pyTokGo x st ++ pyTokGo w none := by
  intro x
  induction x with
  | nil =>
    intro st
    match st with
    | none => simp [pyTokGo]
    | some none =>
      cases w with
      | nil => rfl
      | cons c rest =>
        have hc := (hw c (List.mem_cons_self _ _)).1
        simp only [List.nil_append, pyTokGo, hc]
        rfl
    | some (some a) =>
      cases w with
      | nil => simp [pyTokGo]
      | cons c rest =>
        have hc := (hw c (List.mem_cons_self _ _)).1
        simp only [List.nil_append, pyTokGo, hc]
        cases hexVal a <;> rfl
  | cons c x ih =>
    intro st
    match st with
    | none =>
      simp only [List.cons_append, pyTokGo]
      simp only [List.append_eq]
      cases hs : step0 c with
      | inl t =>
        simp only
        rw [ih none]
        simp
      | inr u =>
        simp only
        exact ih (some none)
    | some none =>
      simp only [List.cons_append, pyTokGo]
      simp only [List.append_eq]
      cases hc : hexVal c with
      | some v =>
        simp only
        exact ih (some (some c))
      | none =>
        simp only
        cases hs : step0 c with
        | inl t =>
          simp only
          rw [ih none]
          simp
        | inr u =>
          simp only
          rw [ih (some none)]
          simp
    | some (some a) =>
      simp only [List.cons_append, pyTokGo]
      simp only [List.append_eq]
      cases ha : hexVal a with
      | some v =>
        cases hc : hexVal c with
        | some y =>
          simp only
          rw [ih none]
          simp
        | none =>
          simp only
          cases hs : step0 c with
          | inl t =>
            simp only
            rw [ih none]
            simp
          | inr u =>
            simp only
            rw [ih (some none)]
            simp
      | none =>
        simp only
        cases hs : step0 c with
        | inl t =>
          simp only
          rw [ih none]
          simp
        | inr u =>
          simp only
          rw [ih (some none)]
          simp

lemma unquoteTokens_ws :
    ∀ (ws : PyStr), (∀ c ∈ ws, pyIsSpace c = true) →
      ∀ buf, unquoteTokens (pyTokGo ws none) buf =
        utf8DecodeReplace buf ++ ws := by
  intro ws
  induction ws with
  | nil =>
    intro _ buf
    simp [pyTokGo, unquoteTokens]
  | cons c rest ih =>
    intro hws buf
    have hc : pyIsSpace c = true := hws c (List.mem_cons_self _ _)
    have hrest : ∀ x ∈ rest, pyIsSpace x = true :=
      fun x hx => hws x (List.mem_cons_of_mem _ hx)
    have hpc : c ≠ '%' := (space_ne hc).1
    simp only [pyTokGo]
    by_cases hascii : c.toNat < 128
    · have hs : step0 c = Sum.inl (Sum.inl c.toNat) := by
        unfold step0
        rw [if_neg hpc, if_pos hascii]
      simp only [hs]
      rw [unquoteTokens, ih hrest (buf ++ [c.toNat]),
        utf8Decode_append_ascii (by intro b hb; simp at hb; omega) buf]
      simp
    · have hs : step0 c = Sum.inl (Sum.inr c) := by
        unfold step0
        rw [if_neg hpc, if_neg hascii]
      simp only [hs]
      rw [unquoteTokens, ih hrest []]
      simp [utf8DecodeReplace, utf8Go]

lemma unquoteTokens_append {ws : PyStr} (hws : ∀ c ∈ ws, pyIsSpace c = true) :
    ∀ (ta : List (Nat ⊕ Char)) (buf : List Nat),
      unquoteTokens (ta ++ pyTokGo ws none) buf =
        unquoteTokens ta buf ++ ws := by
  intro ta
  induction ta with
  | nil =>
    intro buf
    simpa using unquoteTokens_ws ws hws buf
  | cons tok rest ih =>
    intro buf
    cases tok with
    | inl b =>
      simp only [List.cons_append, unquoteTokens]
      exact ih (buf ++ [b])
    | inr ch =>
      simp only [List.cons_append, unquoteTokens]
      simp only [List.append_eq]
      rw [ih []]
      simp

lemma unquote_append_ws {x ws : PyStr} (hws : ∀ c ∈ ws, pyIsSpace c = true) :
    unquote (x ++ ws) = unquote x ++ ws := by
  unfold unquote pyTokens
  rw [pyTokGo_append_safe
    (fun c hc => ⟨hexVal_space (hws c hc), (space_ne (hws c hc)).1⟩) x none]
  exact unquoteTokens_append hws (pyTokGo x none) []

end TocScraper

namespace TocScraper

/-! ### The namespace check ignores an appended whitespace suffix (C8) -/

lemma ciStartsWith_nil_pat {x : PyStr} : ciStartsWith x [] = true := by
  unfold ciStartsWith
  rfl

lemma ciStartsWith_cons {c : Char} {x2 : PyStr} {q : Char} {p : PyStr} :
    ciStartsWith (c :: x2) (q :: p) =
      (toLowerAscii c == toLowerAscii q && ciStartsWith x2 p) := by
  unfold ciStartsWith lowerList
  rw [List.length_cons, List.take_succ_cons, List.map_cons, List.map_cons]
  rfl

lemma ciStartsWith_append_ws {t : PyStr}
    (hsp : ∀ c ∈ t, pyIsSpace c = true) :
    ∀ (p a : PyStr), (∀ c ∈ p, pyIsSpace (toLowerAscii c) = false) →
      ciStartsWith (a ++ t) p = true → ciStartsWith a p = true := by
  intro p
  induction p with
  | nil =>
    intro a _ _
    exact ciStartsWith_nil_pat
  | cons q p ih =>
    intro a hpat h
    cases a with
    | nil =>
      rw [List.nil_append] at h
      cases t with
      | nil => exact absurd h (by simp [ciStartsWith, lowerList])
      | cons c t2 =>
        rw [ciStartsWith_cons, Bool.and_eq_true, beq_iff_eq] at h
        have hc : pyIsSpace c = true := hsp c (List.mem_cons_self _ _)
        have hq : pyIsSpace (toLowerAscii q) = false :=
          hpat q (List.mem_cons_self _ _)
        rw [← h.1, toLowerAscii_space hc] at hq
        rw [hq] at hc
        exact absurd hc (by simp)
    | cons c a2 =>
      rw [List.cons_append, ciStartsWith_cons, Bool.and_eq_true] at h
      rw [ciStartsWith_cons, Bool.and_eq_true]
      exact ⟨h.1, ih a2 (fun x hx => hpat x (List.mem_cons_of_mem _ hx)) h.2⟩

lemma patterns_nonspace :
    ∀ p ∈ forbiddenPatterns, ∀ c ∈ p, pyIsSpace (toLowerAscii c) = false := by
  decide

lemma findForbidden_append_ws {a t : PyStr}
    (h : findForbidden a = none) (ht : ∀ c ∈ t, pyIsSpace c = true) :
    findForbidden (a ++ t) = none := by
  unfold findForbidden at h ⊢
  rw [List.find?_eq_none] at h ⊢
  intro p hp hci
  exact h p hp (ciStartsWith_append_ws ht p a (patterns_nonspace p hp) hci)

end TocScraper

namespace TocScraper

/-! ### `urlparse` on an appended query or fragment suffix (C8) -/

lemma length_le_of_startsWithL {s p : PyStr} (h : startsWithL s p = true) :
    p.length ≤ s.length := by
  unfold startsWithL at h
  rw [beq_iff_eq] at h
  have h2 := congrArg List.length h
  rw [List.length_take] at h2
  omega

lemma startsWithL_append_right {s p : PyStr} (y : PyStr)
    (h : startsWithL s p = true) : startsWithL (s ++ y) p = true := by
  rw [startsWithL_append s y p (length_le_of_startsWithL h)]
  exact h

lemma takeWhileLen {p : Char → Bool} :
    ∀ l : PyStr, (l.takeWhile p).length ≤ l.length := by
  intro l
  induction l with
  | nil => simp
  | cons c rest ih =>
    rw [List.takeWhile_cons]
    split
    · simp only [List.length_cons]
      omega
    · simp

lemma takeWhile_eq_of_length {p : Char → Bool} :
    ∀ l : PyStr, (l.takeWhile p).length = l.length → l.takeWhile p = l := by
  intro l
  induction l with
  | nil => intro _; rfl
  | cons c rest ih =>
    intro h
    rw [List.takeWhile_cons] at h ⊢
    by_cases hpc : p c = true
    · rw [if_pos hpc] at h ⊢
      simp only [List.length_cons] at h
      rw [ih (by omega)]
    · rw [if_neg hpc] at h
      simp at h

lemma takeWhile_and (p q : Char → Bool) :
    ∀ l : PyStr, (l.takeWhile p).takeWhile q =
      l.takeWhile (fun c => p c && q c) := by
  intro l
  induction l with
  | nil => rfl
  | cons c rest ih =>
    by_cases hp : p c = true
    · by_cases hq : q c = true
      · rw [List.takeWhile_cons_of_pos hp, List.takeWhile_cons_of_pos hq,
          List.takeWhile_cons_of_pos (by rw [hp, hq]; rfl), ih]
      · rw [List.takeWhile_cons_of_pos hp,
          List.takeWhile_cons_of_neg (by simp [hq]),
          List.takeWhile_cons_of_neg (by simp [hp, hq])]
    · rw [List.takeWhile_cons_of_neg (by simp [hp]),
        List.takeWhile_cons_of_neg (by simp [hp])]
      rfl

lemma splitFirst_fst {r : PyStr} {c : Char} {x y : PyStr}
    (h : splitFirst r c = some (x, y)) :
    x = r.takeWhile (fun d => d != c) := by
  unfold splitFirst at h
  rcases hd : r.dropWhile (fun d => d != c) with _ | ⟨a, rest⟩
  · rw [hd] at h
    simp at h
  · rw [hd] at h
    dsimp only at h
    rw [Option.some_inj, Prod.mk.injEq] at h
    exact h.1.symm

lemma splitFirst_none_takeWhile {r : PyStr} {c : Char}
    (h : splitFirst r c = none) :
    r.takeWhile (fun d => d != c) = r := by
  unfold splitFirst at h
  rcases hd : r.dropWhile (fun d => d != c) with _ | ⟨a, rest⟩
  · exact List.takeWhile_eq_self_iff.mpr (List.dropWhile_eq_nil_iff.mp hd)
  · rw [hd] at h
    simp at h

lemma pySplitScheme_inv {url : PyStr} (h : (pySplitScheme url).1 ≠ []) :
    ∃ pre post, splitFirst url ':' = some (pre, post) ∧
      (!pre.isEmpty && (pre.headD ' ').isAlpha && pre.all schemeChar) = true ∧
      pySplitScheme url = (lowerList pre, post) := by
  unfold pySplitScheme at h ⊢
  rcases hs : splitFirst url ':' with _ | ⟨pre, post⟩
  · rw [hs] at h
    exact absurd rfl h
  · rw [hs] at h
    by_cases hc : (!pre.isEmpty && (pre.headD ' ').isAlpha &&
        pre.all schemeChar) = true
    · refine ⟨pre, post, rfl, hc, ?_⟩
      dsimp only
      rw [if_pos hc]
    · exact absurd (by dsimp only; rw [if_neg hc]) h

lemma pySplitNetloc_inv {rest : PyStr} (h : (pySplitNetloc rest).1 ≠ []) :
    startsWithL rest "//".data = true ∧
    pySplitNetloc rest = ((rest.drop 2).takeWhile notNetlocDelim,
      (rest.drop 2).drop ((rest.drop 2).takeWhile notNetlocDelim).length) := by
  unfold pySplitNetloc at h ⊢
  by_cases hs : startsWithL rest "//".data = true
  · refine ⟨hs, ?_⟩
    rw [if_pos hs]
  · exact absurd (by rw [if_neg hs]) h

lemma pyUrlsplit_shape (url0 pre post : PyStr)
    (hsp : splitFirst (removeUnsafe url0) ':' = some (pre, post))
    (hcond : (!pre.isEmpty && (pre.headD ' ').isAlpha &&
      pre.all schemeChar) = true)
    (hnn : startsWithL post "//".data = true)
    (hbr : ((((post.drop 2).takeWhile notNetlocDelim).contains '[' &&
        !((post.drop 2).takeWhile notNetlocDelim).contains ']') ||
       (((post.drop 2).takeWhile notNetlocDelim).contains ']' &&
        !((post.drop 2).takeWhile notNetlocDelim).contains '[')) = false) :
    ∃ qu fr, pyUrlsplit url0 =
      some ⟨lowerList pre, (post.drop 2).takeWhile notNetlocDelim,
        ((((post.drop 2).drop
            ((post.drop 2).takeWhile notNetlocDelim).length).takeWhile
          (fun d => d != '#')).takeWhile (fun d => d != '?')), qu, fr⟩ := by
  have hsp2 : pySplitScheme (removeUnsafe url0) = (lowerList pre, post) := by
    unfold pySplitScheme
    rw [hsp]
    dsimp only
    rw [if_pos hcond]
  have hnl : pySplitNetloc post = ((post.drop 2).takeWhile notNetlocDelim,
      (post.drop 2).drop ((post.drop 2).takeWhile notNetlocDelim).length) := by
    unfold pySplitNetloc
    rw [if_pos hnn]
  unfold pyUrlsplit
  dsimp only
  rw [hsp2]
  dsimp only
  rw [hnl]
  dsimp only
  rw [if_neg (by rw [hbr]; simp)]
  rcases hfq : splitFirst ((post.drop 2).drop
      ((post.drop 2).takeWhile notNetlocDelim).length) '#' with _ | ⟨a1, b1⟩
  · dsimp only
    rcases hpq : splitFirst ((post.drop 2).drop
        ((post.drop 2).takeWhile notNetlocDelim).length) '?' with _ | ⟨a2, b2⟩
    · dsimp only
      refine ⟨[], [], ?_⟩
      rw [splitFirst_none_takeWhile hfq, splitFirst_none_takeWhile hpq]
    · dsimp only
      refine ⟨b2, [], ?_⟩
      rw [splitFirst_none_takeWhile hfq, ← splitFirst_fst hpq]
  · dsimp only
    rcases hpq : splitFirst a1 '?' with _ | ⟨a2, b2⟩
    · dsimp only
      refine ⟨[], b1, ?_⟩
      rw [← splitFirst_fst hfq, splitFirst_none_takeWhile hpq]
    · dsimp only
      refine ⟨b2, b1, ?_⟩
      rw [← splitFirst_fst hfq, ← splitFirst_fst hpq]

lemma pyUrlsplit_char {s : PyStr} {P : UrlParts} (h : pyUrlsplit s = some P) :
    P.scheme = (pySplitScheme (removeUnsafe s)).1 ∧
    P.netloc = (pySplitNetloc (pySplitScheme (removeUnsafe s)).2).1 ∧
    ((P.netloc.contains '[' && !P.netloc.contains ']') ||
     (P.netloc.contains ']' && !P.netloc.contains '[')) = false := by
  unfold pyUrlsplit at h
  dsimp only at h
  split at h
  · exact absurd h (by simp)
  · rename_i hbr
    rw [Option.some_inj] at h
    subst h
    exact ⟨rfl, rfl, by simpa using hbr⟩

lemma pyUrlsplit_append {s : PyStr} {P : UrlParts} (ext : PyStr)
    (h : pyUrlsplit s = some P) (hsch : P.scheme ≠ []) (hnet : P.netloc ≠ [])
    (hpath : P.path ≠ []) :
    ∃ P2, pyUrlsplit (s ++ ext) = some P2 ∧ P2.scheme = P.scheme ∧
      P2.netloc = P.netloc ∧
      (P2.path = P.path ∨ P2.path = P.path ++
        (removeUnsafe ext).takeWhile
          (fun d => (d != '#') && (d != '?'))) := by
  obtain ⟨hS, hN, hBr⟩ := pyUrlsplit_char h
  obtain ⟨pre, post, hsp, hcond, hsp2⟩ := pySplitScheme_inv (hS ▸ hsch)
  rw [hsp2] at hS hN
  dsimp only at hS hN
  obtain ⟨hnn, hnl⟩ := pySplitNetloc_inv (hN ▸ hnet)
  rw [hnl] at hN
  dsimp only at hN
  rw [hN] at hBr
  obtain ⟨qu, fr, hshape⟩ := pyUrlsplit_shape s pre post hsp hcond hnn hBr
  rw [h, Option.some_inj] at hshape
  have hPath : P.path = (((post.drop 2).drop
      ((post.drop 2).takeWhile notNetlocDelim).length).takeWhile
        (fun d => d != '#')).takeWhile (fun d => d != '?') := by
    rw [hshape]
  have hp2 : 2 ≤ post.length := by
    have h1 := length_le_of_startsWithL hnn
    rw [(by decide : ("//".data : PyStr).length = 2)] at h1
    exact h1
  have hr2ne : (post.drop 2).drop
      ((post.drop 2).takeWhile notNetlocDelim).length ≠ [] := by
    intro hnil
    apply hpath
    rw [hPath, hnil]
    rfl
  have hnlen : ((post.drop 2).takeWhile notNetlocDelim).length <
      (post.drop 2).length := by
    by_contra hge
    apply hr2ne
    rw [List.drop_eq_nil_iff]
    omega
  have hsp3 : splitFirst (removeUnsafe (s ++ ext)) ':' =
      some (pre, post ++ removeUnsafe ext) := by
    rw [removeUnsafe_append]
    exact splitFirst_append_left _ hsp
  have hnn2 : startsWithL (post ++ removeUnsafe ext) "//".data = true :=
    startsWithL_append_right _ hnn
  have hdrop2 : (post ++ removeUnsafe ext).drop 2 =
      post.drop 2 ++ removeUnsafe ext :=
    List.drop_append_of_le_length hp2
  have htw : (post.drop 2 ++ removeUnsafe ext).takeWhile notNetlocDelim =
      (post.drop 2).takeWhile notNetlocDelim := by
    rw [List.takeWhile_append, if_neg (by omega)]
  have hdropn : (post.drop 2 ++ removeUnsafe ext).drop
      ((post.drop 2).takeWhile notNetlocDelim).length =
      ((post.drop 2).drop ((post.drop 2).takeWhile notNetlocDelim).length)
        ++ removeUnsafe ext :=
    List.drop_append_of_le_length (Nat.le_of_lt hnlen)
  obtain ⟨qu2, fr2, hshape2⟩ := pyUrlsplit_shape (s ++ ext) pre
    (post ++ removeUnsafe ext) hsp3 hcond hnn2 (by rw [hdrop2, htw]; exact hBr)
  refine ⟨_, hshape2, ?_, ?_, ?_⟩
  · exact hS.symm
  · dsimp only
    rw [hdrop2, htw]
    exact hN.symm
  · rw [takeWhile_and] at hPath
    dsimp only
    rw [hdrop2, htw, hdropn, takeWhile_and, List.takeWhile_append]
    by_cases hfull : (((post.drop 2).drop
        ((post.drop 2).takeWhile notNetlocDelim).length).takeWhile
          (fun c => (c != '#') && (c != '?'))).length =
        ((post.drop 2).drop
          ((post.drop 2).takeWhile notNetlocDelim).length).length
    · rw [if_pos hfull]
      right
      rw [hPath, takeWhile_eq_of_length _ hfull]
    · rw [if_neg hfull]
      left
      exact hPath.symm

lemma pySplitParams_fst_append_ws {p tko : PyStr}
    (ht : ∀ c ∈ tko, pyIsSpace c = true) :
    (pySplitParams (p ++ tko)).1 = (pySplitParams p).1 ∨
    (pySplitParams (p ++ tko)).1 = (pySplitParams p).1 ++ tko := by
  have hslash : ∀ c ∈ tko.reverse, (fun c => c != '/') c = true := by
    intro c hc
    rw [List.mem_reverse] at hc
    simp only [bne_iff_ne]
    exact (space_ne2 (ht c hc)).1
  have htl : ((p ++ tko).reverse.takeWhile (fun c => c != '/')).reverse =
      (p.reverse.takeWhile (fun c => c != '/')).reverse ++ tko := by
    rw [List.reverse_append, List.takeWhile_append,
      if_pos (by rw [List.takeWhile_eq_self_iff.mpr hslash]),
      List.reverse_append, List.reverse_reverse]
  have hhd : ((p ++ tko).reverse.dropWhile (fun c => c != '/')).reverse =
      (p.reverse.dropWhile (fun c => c != '/')).reverse := by
    rw [List.reverse_append, List.dropWhile_append,
      if_pos (by
        rw [List.isEmpty_eq_true, List.dropWhile_eq_nil_iff]
        exact hslash)]
  unfold pySplitParams
  dsimp only
  rw [htl, hhd]
  by_cases hsemi :
      ((p.reverse.takeWhile (fun c => c != '/')).reverse).contains ';' = true
  · have h1 : ((p.reverse.takeWhile (fun c => c != '/')).reverse ++
        tko).contains ';' = true :=
      contains_of_mem (List.mem_append_left _ (mem_of_contains hsemi))
    rw [if_pos h1, if_pos hsemi]
    left
    dsimp only
    congr 1
    rw [List.takeWhile_append, if_neg]
    intro hlen
    have heqw := takeWhile_eq_of_length _ hlen
    have hm2 := List.takeWhile_eq_self_iff.mp heqw ';' (mem_of_contains hsemi)
    simp at hm2
  · have h2 : ((p.reverse.takeWhile (fun c => c != '/')).reverse ++
        tko).contains ';' = false := by
      rw [← Bool.not_eq_true]
      intro hc
      have hm := mem_of_contains hc
      rw [List.mem_append] at hm
      rcases hm with hm | hm
      · exact hsemi (contains_of_mem hm)
      · exact (space_ne2 (ht _ hm)).2 rfl
    rw [if_neg (by rw [h2]; simp), if_neg hsemi]
    right
    rfl

lemma pyUrlparse_char {s : PyStr} {P : UrlParts} (h : pyUrlparse s = some P) :
    ∃ P0, pyUrlsplit s = some P0 ∧ P.scheme = P0.scheme ∧
      P.netloc = P0.netloc ∧
      ((usesParams.contains P0.scheme && P0.path.contains ';') = false ∧
          P.path = P0.path ∨
        (usesParams.contains P0.scheme && P0.path.contains ';') = true ∧
          P.path = (pySplitParams P0.path).1) := by
  unfold pyUrlparse at h
  rcases hps : pyUrlsplit s with _ | P0
  · rw [hps] at h
    simp at h
  · rw [hps] at h
    dsimp only at h
    split at h
    · rename_i hc
      rw [Option.some_inj] at h
      subst h
      exact ⟨P0, rfl, rfl, rfl, Or.inr ⟨hc, rfl⟩⟩
    · rename_i hc
      rw [Option.some_inj] at h
      subst h
      exact ⟨P0, rfl, rfl, rfl, Or.inl ⟨by simpa using hc, rfl⟩⟩

lemma pyUrlparse_append {s : PyStr} {P : UrlParts} (ext : PyStr)
    (h : pyUrlparse s = some P) (hsch : P.scheme = "https".data)
    (hnet : P.netloc ≠ []) (hpath : P.path ≠ [])
    (hws : ∀ c ∈ (removeUnsafe ext).takeWhile
      (fun d => (d != '#') && (d != '?')), pyIsSpace c = true) :
    ∃ P2 tko, pyUrlparse (s ++ ext) = some P2 ∧
      P2.scheme = P.scheme ∧ P2.netloc = P.netloc ∧
      P2.path = P.path ++ tko ∧ ∀ c ∈ tko, pyIsSpace c = true := by
  obtain ⟨P0, hP0, hs0, hn0, hrel⟩ := pyUrlparse_char h
  have hs0sch : P0.scheme = "https".data := hs0 ▸ hsch
  have hp0ne : P0.path ≠ [] := by
    intro h0
    apply hpath
    rcases hrel with ⟨_, hpp⟩ | ⟨_, hpp⟩
    · rw [hpp, h0]
    · rw [hpp, h0]
      decide
  have hs0ne : P0.scheme ≠ [] := by
    rw [hs0sch]
    decide
  have hn0ne : P0.netloc ≠ [] := by
    rw [← hn0]
    exact hnet
  obtain ⟨P20, hP20, h20s, h20n, h20p⟩ :=
    pyUrlsplit_append ext hP0 hs0ne hn0ne hp0ne
  have h20p2 : ∃ tko0, P20.path = P0.path ++ tko0 ∧
      ∀ c ∈ tko0, pyIsSpace c = true := by
    rcases h20p with h1 | h1
    · refine ⟨[], by rw [h1, List.append_nil], ?_⟩
      intro c hc
      simp at hc
    · exact ⟨_, h1, hws⟩
  obtain ⟨tko0, h20path, htko0⟩ := h20p2
  have husep : usesParams.contains P0.scheme = true := by
    rw [hs0sch]
    decide
  unfold pyUrlparse
  rw [hP20]
  dsimp only
  rcases hrel with ⟨hcf, hpp⟩ | ⟨hct, hpp⟩
  · have hb : P0.path.contains ';' = false := by
      rw [husep] at hcf
      simpa using hcf
    have hb2 : (P0.path ++ tko0).contains ';' = false := by
      rw [← Bool.not_eq_true]
      intro hc
      have hm := mem_of_contains hc
      rw [List.mem_append] at hm
      rcases hm with hm | hm
      · exact absurd (contains_of_mem hm) (by rw [hb]; simp)
      · exact (space_ne2 (htko0 _ hm)).2 rfl
    rw [if_neg (by rw [h20s, husep, h20path, hb2]; simp)]
    refine ⟨P20, tko0, rfl, ?_, ?_, ?_, htko0⟩
    · rw [h20s, ← hs0]
    · rw [h20n, ← hn0]
    · rw [h20path, hpp]
  · have hb : P0.path.contains ';' = true := by
      rw [husep] at hct
      simpa using hct
    have hb2 : (P0.path ++ tko0).contains ';' = true :=
      contains_of_mem (List.mem_append_left _ (mem_of_contains hb))
    rw [if_pos (by rw [h20s, husep, h20path, hb2]; rfl)]
    rcases pySplitParams_fst_append_ws (p := P0.path) htko0 with hsp | hsp
    · refine ⟨_, [], rfl, ?_, ?_, ?_, ?_⟩
      · dsimp only
        rw [h20s, ← hs0]
      · dsimp only
        rw [h20n, ← hn0]
      · dsimp only
        rw [h20path, hsp, ← hpp, List.append_nil]
      · intro c hc
        simp at hc
    · refine ⟨_, tko0, rfl, ?_, ?_, ?_, htko0⟩
      · dsimp only
        rw [h20s, ← hs0]
      · dsimp only
        rw [h20n, ← hn0]
      · dsimp only
        rw [h20path, hsp, ← hpp]

end TocScraper

namespace TocScraper

/-! ### C8: queries and fragments do not change the validation outcome -/

lemma steps18_inv {u article : PyStr}
    (h : validateSteps18 (some u) = Sum.inr article) :
    ∃ P, pyStrip u ≠ [] ∧ pyUrlparse (pyStrip u) = some P ∧
      P.scheme = "https".data ∧
      endsWithL P.netloc ".wikipedia.org".data = true ∧
      startsWithL P.netloc "m.".data = false ∧
      startsWithL P.netloc "commons.".data = false ∧
      startsWithL P.path "/wiki/".data = true ∧
      startsWithL P.path "/w/".data = false ∧
      startsWithL P.path "/api/".data = false ∧
      startsWithL P.path "/trap/".data = false ∧
      article = unquote (P.path.drop 6) ∧ article ≠ [] := by
  unfold validateSteps18 at h
  dsimp only at h
  split at h
  · simp at h
  rename_i hne1
  split at h
  · simp at h
  rename_i hne2
  split at h
  · simp at h
  rename_i parsed heq
  split at h
  · simp at h
  rename_i hscheme
  split at h
  · simp at h
  rename_i hdom
  split at h
  · simp at h
  rename_i hmob
  split at h
  · simp at h
  rename_i hwiki
  split at h
  · simp at h
  rename_i hw
  split at h
  · simp at h
  rename_i hapi
  split at h
  · simp at h
  rename_i htrap
  split at h
  · simp at h
  rename_i hempty
  rw [Sum.inr.injEq] at h
  have hstrip : pyStrip u ≠ [] := by simpa using hne2
  have hsch : parsed.scheme = "https".data := by simpa using hscheme
  have hend : endsWithL parsed.netloc ".wikipedia.org".data = true := by
    simpa using hdom
  have hmm2 : startsWithL parsed.netloc "m.".data = false ∧
      startsWithL parsed.netloc "commons.".data = false := by
    simpa [not_or] using hmob
  have hwk : startsWithL parsed.path "/wiki/".data = true := by
    simpa using hwiki
  have hw2 : startsWithL parsed.path "/w/".data = false := by simpa using hw
  have hapi2 : startsWithL parsed.path "/api/".data = false := by
    simpa using hapi
  have htrap2 : startsWithL parsed.path "/trap/".data = false := by
    simpa using htrap
  have hart : unquote (parsed.path.drop 6) ≠ [] := by simpa using hempty
  exact ⟨parsed, hstrip, heq, hsch, hend, hmm2.1, hmm2.2, hwk, hw2, hapi2,
    htrap2, h.symm, h ▸ hart⟩

lemma validate_accept {u : PyStr}
    (hacc : (validate_wikipedia_url (some u)).1 = true) :
    ∃ article, validateSteps18 (some u) = Sum.inr article ∧
      findForbidden article = none ∧
      validate_wikipedia_url (some u) = (true, []) := by
  unfold validate_wikipedia_url at hacc ⊢
  rcases hs : validateSteps18 (some u) with r | article
  · rw [hs] at hacc
    dsimp only at hacc
    have hg := steps18_good (some u)
    rw [hs] at hg
    rw [hg.1] at hacc
    simp at hacc
  · rw [hs] at hacc
    dsimp only at hacc
    unfold checkNamespaces at hacc
    rcases hf : findForbidden article with _ | p
    · refine ⟨article, rfl, hf, ?_⟩
      dsimp only
      unfold checkNamespaces
      rw [hf]
    · rw [hf] at hacc
      dsimp only at hacc
      simp at hacc

lemma validate_append (u z : PyStr) (d : Char) (hd : d = '?' ∨ d = '#')
    (hacc : (validate_wikipedia_url (some u)).1 = true) :
    validate_wikipedia_url (some (u ++ d :: z)) =
      validate_wikipedia_url (some u) := by
  obtain ⟨article, hsteps, hff, hval⟩ := validate_accept hacc
  obtain ⟨P, hstrip, hP, hsch, hend, hm1, hm2, hwk, hw2, hapi2, htrap2,
    hart, hartne⟩ := steps18_inv hsteps
  have hdns : pyIsSpace d = false := by
    rcases hd with rfl | rfl <;> decide
  obtain ⟨t, hts, htsp⟩ := lstrip_decomp u
  have hlne : lstripWs u ≠ [] := by
    intro h0
    apply hstrip
    unfold pyStrip
    rw [h0]
    rfl
  have hstr : pyStrip (u ++ d :: z) =
      pyStrip u ++ (t ++ d :: rstripWs z) := by
    rw [pyStrip_append_cons u z hdns hlne, hts, List.append_assoc]
  have hre : removeUnsafe (t ++ d :: rstripWs z) =
      removeUnsafe t ++ d :: removeUnsafe (rstripWs z) := by
    rw [removeUnsafe_append]
    congr 1
    unfold removeUnsafe
    rw [List.filter_cons,
      if_pos (show (!(d == '\t' || d == '\r' || d == '\n')) = true by
        rcases hd with rfl | rfl <;> decide)]
  have htsp2 : ∀ c ∈ removeUnsafe t, pyIsSpace c = true := by
    intro c hc
    exact htsp c (List.mem_of_mem_filter hc)
  have hall : (removeUnsafe t).takeWhile
      (fun c => (c != '#') && (c != '?')) = removeUnsafe t := by
    rw [List.takeWhile_eq_self_iff]
    intro x hx
    have hs := space_ne (htsp2 x hx)
    simp only [Bool.and_eq_true, bne_iff_ne]
    exact ⟨hs.2.1, hs.2.2⟩
  have hdk : (removeUnsafe (t ++ d :: rstripWs z)).takeWhile
      (fun c => (c != '#') && (c != '?')) = removeUnsafe t := by
    rw [hre, List.takeWhile_append, if_pos (by rw [hall]),
      List.takeWhile_cons_of_neg (by rcases hd with rfl | rfl <;> decide),
      List.append_nil]
  have hnne : P.netloc ≠ [] := by
    intro h0
    rw [h0] at hend
    exact absurd hend (by decide)
  have hplen : 6 ≤ P.path.length := by
    have h1 := length_le_of_startsWithL hwk
    rw [(by decide : ("/wiki/".data : PyStr).length = 6)] at h1
    exact h1
  have hpne : P.path ≠ [] := by
    intro h0
    rw [h0] at hplen
    simp at hplen
  obtain ⟨P2, tko, hP2, hP2s, hP2n, hP2path, htko⟩ :=
    pyUrlparse_append (t ++ d :: rstripWs z) hP hsch hnne hpne
      (by rw [hdk]; exact htsp2)
  have hart3 : unquote ((P.path ++ tko).drop 6) = article ++ tko := by
    rw [List.drop_append_of_le_length hplen, unquote_append_ws htko, ← hart]
  have hwlen : ("/wiki/".data : PyStr).length ≤ P.path.length := by
    rw [(by decide : ("/wiki/".data : PyStr).length = 6)]
    exact hplen
  have h3len : ("/w/".data : PyStr).length ≤ P.path.length := by
    rw [(by decide : ("/w/".data : PyStr).length = 3)]
    omega
  have h5len : ("/api/".data : PyStr).length ≤ P.path.length := by
    rw [(by decide : ("/api/".data : PyStr).length = 5)]
    omega
  have h6len : ("/trap/".data : PyStr).length ≤ P.path.length := by
    rw [(by decide : ("/trap/".data : PyStr).length = 6)]
    exact hplen
  have hsteps2 : validateSteps18 (some (u ++ d :: z)) =
      Sum.inr (article ++ tko) := by
    unfold validateSteps18
    dsimp only
    rw [if_neg (by simp)]
    rw [hstr]
    rw [if_neg (by simp [List.isEmpty_eq_true, hstrip])]
    rw [hP2]
    dsimp only
    rw [hP2s, hsch]
    rw [if_neg (by decide)]
    rw [hP2n]
    rw [if_neg (by rw [hend]; decide)]
    rw [if_neg (by rw [hm1, hm2]; decide)]
    rw [hP2path]
    rw [if_neg (by rw [startsWithL_append _ _ _ hwlen, hwk]; decide)]
    rw [if_neg (by rw [startsWithL_append _ _ _ h3len, hw2]; decide)]
    rw [if_neg (by rw [startsWithL_append _ _ _ h5len, hapi2]; decide)]
    rw [if_neg (by rw [startsWithL_append _ _ _ h6len, htrap2]; decide)]
    rw [hart3]
    rw [if_neg (by
      simp only [List.isEmpty_eq_true, List.append_eq_nil]
      rintro ⟨h1, -⟩
      exact hartne h1)]
  unfold validate_wikipedia_url
  rw [hsteps2, hsteps]
  dsimp only
  unfold checkNamespaces
  rw [hff, findForbidden_append_ws hff htko]

/-- **C8**: for every URL accepted by `validate_wikipedia_url`, appending a
query string (`?...`), a fragment (`#...`), or both, leaves the validation
outcome — acceptance flag and reason — unchanged, because only the parsed
path component is inspected. -/
theorem C8_theorem (u q f : PyStr)
    (hacc : (validate_wikipedia_url (some u)).1 = true) :
    validate_wikipedia_url (some (u ++ '?' :: q)) =
      validate_wikipedia_url (some u) ∧
    validate_wikipedia_url (some (u ++ '#' :: f)) =
      validate_wikipedia_url (some u) ∧
    validate_wikipedia_url (some ((u ++ '?' :: q) ++ '#' :: f)) =
      validate_wikipedia_url (some u) := by
  refine ⟨validate_append u q '?' (Or.inl rfl) hacc,
    validate_append u f '#' (Or.inr rfl) hacc, ?_⟩
  rw [List.append_assoc, List.cons_append]
  exact validate_append u (q ++ '#' :: f) '?' (Or.inl rfl) hacc

/-- C8 witness: `.../wiki/Test` with `?action=edit`, `#History` and both. -/
theorem C8_witness :
    (validate_wikipedia_url
        (some "https://en.wikipedia.org/wiki/Test".data)).1 = true ∧
    (validate_wikipedia_url (some ("https://en.wikipedia.org/wiki/Test".data ++
        '?' :: "action=edit".data)) =
      validate_wikipedia_url
        (some "https://en.wikipedia.org/wiki/Test".data) ∧
    validate_wikipedia_url (some ("https://en.wikipedia.org/wiki/Test".data ++
        '#' :: "History".data)) =
      validate_wikipedia_url
        (some "https://en.wikipedia.org/wiki/Test".data) ∧
    validate_wikipedia_url
        (some (("https://en.wikipedia.org/wiki/Test".data ++
          '?' :: "action=edit".data) ++ '#' :: "History".data)) =
      validate_wikipedia_url
        (some "https://en.wikipedia.org/wiki/Test".data)) :=
  ⟨by decide, C8_theorem "https://en.wikipedia.org/wiki/Test".data
    "action=edit".data "History".data (by decide)⟩

end TocScraper
